import Mathlib

set_option autoImplicit false

/-!
Shallow embedding of the word-docids extraction pipeline of
`milli/src/update/new/extract/searchable/extract_word_docids.rs`, of the
field-id/weight map of `milli/src/fieldids_weights_map.rs`, and of the prompt
data round trip of `milli/src/prompt/mod.rs`.

Modelling conventions:
* Bytes are `Nat` (with `% 256` where the code narrows), byte strings are
  `List Nat`, `FieldId`/`Position` are `Nat` standing for `u16`, `DocumentId`
  is `Nat` standing for `u32`.
* A `CboCachedSorter` is modelled by the chronological lists of `(key, docid)`
  write events on its del and add sides.  The LRU cache, the eviction path and
  the external grenad sorter below it merge the values of one key by set union
  on each DelAdd side and never drop a write (spec invariant 3), so those
  layers are invisible at this level of abstraction; the memory configuration
  that `WordDocidsCachedSorters::new` hands to `create_sorter` is modelled
  separately by `sorterBudgets`.
* Fallible operations return `Option`: `none` models the
  `self.current_docid.unwrap()` panic inside `flush_fid_word_count`.  Sorter
  I/O errors are not modelled.
* The `fid_word_count` HashMap is rendered as an association list in first
  insertion order; its iteration order in the code is arbitrary, and every
  statement proved about the flushed writes is insensitive to that order.
* Document bodies and the tokenizer are external to the provided sources; a
  document version is therefore represented by the list of tokens
  (`field_name`, `field_id`, `position`, `word`) that
  `DocumentTokenizer::tokenize_document` feeds to the per-token callback, in
  callback order.
-/

/-- `const MAX_COUNTED_WORDS: usize = 30` -/
def MAX_COUNTED_WORDS : Nat := 30

/-- Big-endian bytes of a `u16`, as produced by `to_be_bytes`. -/
def beU16 (n : Nat) : List Nat :=
  [n / 256 % 256, n % 256]

/-- Modelled from the spec: `bucketed_position` (component A) is a free function of the
crate that is not among the provided sources.  Spec section 4.A requires a deterministic,
monotone non-decreasing compressor onto a bounded u16 range, identity on small values
with logarithmically widening buckets beyond. -/
def bucketed_position (relative : Nat) : Nat :=
  if relative ≤ 15 then relative else 15 + Nat.log2 (relative - 14)

/-- Composite key for `word_fid_docids` as built by `insert_add_u32`/`insert_del_u32`:
the word bytes, one `0x00` separator byte, then the big-endian field id. -/
def wordFidKey (word : List Nat) (field_id : Nat) : List Nat :=
  word ++ 0 :: beU16 field_id

/-- Composite key for `word_position_docids`: the word bytes, one `0x00` separator byte,
then the big-endian bucketed position. -/
def wordPositionKey (word : List Nat) (position : Nat) : List Nat :=
  word ++ 0 :: beU16 (bucketed_position position)

/-- Key for `fid_word_count_docids` as built by `flush_fid_word_count`: big-endian field
id followed by the count narrowed to one byte (`count as u8`). -/
def fidCountKey (field_id count : Nat) : List Nat :=
  beU16 field_id ++ [count % 256]

/-- One cached sorter (`CboCachedSorter<MergeDeladdCboRoaringBitmaps>`), modelled by the
chronological `(key, docid)` write events on each DelAdd side. -/
structure CboCachedSorter where
  delWrites : List (List Nat × Nat)
  addWrites : List (List Nat × Nat)
deriving DecidableEq

/-- `CboCachedSorter::insert_del_u32`: record `docid` on the del side of `key`. -/
def CboCachedSorter.insertDel (c : CboCachedSorter) (key : List Nat) (docid : Nat) :
    CboCachedSorter :=
  { c with delWrites := c.delWrites ++ [(key, docid)] }

/-- `CboCachedSorter::insert_add_u32`: record `docid` on the add side of `key`. -/
def CboCachedSorter.insertAdd (c : CboCachedSorter) (key : List Nat) (docid : Nat) :
    CboCachedSorter :=
  { c with addWrites := c.addWrites ++ [(key, docid)] }

/-- The per-thread accumulator `WordDocidsCachedSorters`. -/
structure WordDocidsCachedSorters where
  word_fid_docids : CboCachedSorter
  word_docids : CboCachedSorter
  exact_word_docids : CboCachedSorter
  word_position_docids : CboCachedSorter
  fid_word_count_docids : CboCachedSorter
  fid_word_count : List (Nat × Nat × Nat)
  current_docid : Option Nat
deriving DecidableEq

/-- The state `WordDocidsCachedSorters::new` builds: five empty cached sorters, an empty
`fid_word_count` tally and no current document. -/
def WordDocidsCachedSorters.new : WordDocidsCachedSorters :=
  { word_fid_docids := ⟨[], []⟩
  , word_docids := ⟨[], []⟩
  , exact_word_docids := ⟨[], []⟩
  , word_position_docids := ⟨[], []⟩
  , fid_word_count_docids := ⟨[], []⟩
  , fid_word_count := []
  , current_docid := none }

/-- The grenad memory budget each of the five sorters receives from
`WordDocidsCachedSorters::new` (the `create_sorter` `max_memory` argument). -/
structure SorterBudgets where
  word_fid_docids : Option Nat
  word_docids : Option Nat
  exact_word_docids : Option Nat
  word_position_docids : Option Nat
  fid_word_count_docids : Option Nat
deriving DecidableEq

/-- `WordDocidsCachedSorters::new` first computes
`let max_memory = max_memory.map(|max_memory| max_memory / 4)` and then passes this same
value to `create_sorter` for each of the five sorters. -/
def sorterBudgets (max_memory : Option Nat) : SorterBudgets :=
  let mm := max_memory.map (fun m => m / 4)
  { word_fid_docids := mm
  , word_docids := mm
  , exact_word_docids := mm
  , word_position_docids := mm
  , fid_word_count_docids := mm }

/-- `self.current_docid.map_or(false, |id| docid != id)` -/
def differentDocid (current : Option Nat) (docid : Nat) : Bool :=
  match current with
  | none => false
  | some id => docid != id

/-- `.entry(field_id).and_modify(|(_, new_count)| *new_count += 1).or_insert((0, 1))`
on the association-list rendering of the `fid_word_count` map. -/
def bumpAdd : List (Nat × Nat × Nat) → Nat → List (Nat × Nat × Nat)
  | [], field_id => [(field_id, 0, 1)]
  | (f, c, n) :: rest, field_id =>
    if f = field_id then (f, c, n + 1) :: rest
    else (f, c, n) :: bumpAdd rest field_id

/-- `.entry(field_id).and_modify(|(current_count, _)| *current_count += 1)
.or_insert((1, 0))` on the association-list rendering of the `fid_word_count` map. -/
def bumpDel : List (Nat × Nat × Nat) → Nat → List (Nat × Nat × Nat)
  | [], field_id => [(field_id, 1, 0)]
  | (f, c, n) :: rest, field_id =>
    if f = field_id then (f, c + 1, n) :: rest
    else (f, c, n) :: bumpDel rest field_id

/-- The drain loop of `flush_fid_word_count`: for each tally entry
`(fid, (current_count, new_count))` with `current_count != new_count`, write the del side
for `current_count <= MAX_COUNTED_WORDS` and the add side for
`new_count <= MAX_COUNTED_WORDS`, each under `self.current_docid.unwrap()` (modelled by
the `Option` bind on `current`). -/
def flushEntries (current : Option Nat) :
    List (Nat × Nat × Nat) → CboCachedSorter → Option CboCachedSorter
  | [], sorter => some sorter
  | (fid, current_count, new_count) :: rest, sorter =>
    if current_count ≠ new_count then
      let step1 : Option CboCachedSorter :=
        if current_count ≤ MAX_COUNTED_WORDS then
          match current with
          | none => none
          | some d => some (sorter.insertDel (fidCountKey fid current_count) d)
        else some sorter
      match step1 with
      | none => none
      | some sorter1 =>
        let step2 : Option CboCachedSorter :=
          if new_count ≤ MAX_COUNTED_WORDS then
            match current with
            | none => none
            | some d => some (sorter1.insertAdd (fidCountKey fid new_count) d)
          else some sorter1
        match step2 with
        | none => none
        | some sorter2 => flushEntries current rest sorter2
    else flushEntries current rest sorter

/-- `WordDocidsCachedSorters::flush_fid_word_count`: drain the tally into
`fid_word_count_docids`. -/
def WordDocidsCachedSorters.flush_fid_word_count (s : WordDocidsCachedSorters) :
    Option WordDocidsCachedSorters :=
  match flushEntries s.current_docid s.fid_word_count s.fid_word_count_docids with
  | none => none
  | some sorter => some { s with fid_word_count_docids := sorter, fid_word_count := [] }

/-- `WordDocidsCachedSorters::insert_add_u32`. -/
def WordDocidsCachedSorters.insert_add_u32 (s : WordDocidsCachedSorters)
    (field_id position : Nat) (word : List Nat) (exact : Bool) (docid : Nat) :
    Option WordDocidsCachedSorters :=
  let s1 :=
    if exact then { s with exact_word_docids := s.exact_word_docids.insertAdd word docid }
    else { s with word_docids := s.word_docids.insertAdd word docid }
  let s2 := { s1 with
    word_fid_docids := s1.word_fid_docids.insertAdd (wordFidKey word field_id) docid }
  let s3 := { s2 with
    word_position_docids :=
      s2.word_position_docids.insertAdd (wordPositionKey word position) docid }
  let s4? := if differentDocid s3.current_docid docid
    then s3.flush_fid_word_count else some s3
  match s4? with
  | none => none
  | some s4 => some { s4 with
      fid_word_count := bumpAdd s4.fid_word_count field_id
      current_docid := some docid }

/-- `WordDocidsCachedSorters::insert_del_u32`. -/
def WordDocidsCachedSorters.insert_del_u32 (s : WordDocidsCachedSorters)
    (field_id position : Nat) (word : List Nat) (exact : Bool) (docid : Nat) :
    Option WordDocidsCachedSorters :=
  let s1 :=
    if exact then { s with exact_word_docids := s.exact_word_docids.insertDel word docid }
    else { s with word_docids := s.word_docids.insertDel word docid }
  let s2 := { s1 with
    word_fid_docids := s1.word_fid_docids.insertDel (wordFidKey word field_id) docid }
  let s3 := { s2 with
    word_position_docids :=
      s2.word_position_docids.insertDel (wordPositionKey word position) docid }
  let s4? := if differentDocid s3.current_docid docid
    then s3.flush_fid_word_count else some s3
  match s4? with
  | none => none
  | some s4 => some { s4 with
      fid_word_count := bumpDel s4.fid_word_count field_id
      current_docid := some docid }

/-- Modelled from the spec: `contained_in` comes from `perm_json_p`, which is not among
the provided sources.  Spec section 4.F: a field name is contained in an attribute entry
by prefix-containment per the engine's field-path semantics, i.e. the entry is a
whole-path prefix of the field name (equal to it, or followed by a `.` separator). -/
def contained_in (selector sub_selector : String) : Bool :=
  sub_selector.isPrefixOf selector &&
    (match selector.toList.drop sub_selector.toList.length with
     | [] => true
     | c :: _ => c == '.')

/-- The `is_exact_attribute` closure of `extract_document_change`:
`exact_attributes.iter().any(|attr| contained_in(fname, attr))`. -/
def is_exact_attribute (exact_attributes : List String) (fname : String) : Bool :=
  exact_attributes.any (fun attr => contained_in fname attr)

/-- One token handed to the per-token callback by
`DocumentTokenizer::tokenize_document`: field name, field id, position, word bytes. -/
structure Token where
  fname : String
  fid : Nat
  pos : Nat
  word : List Nat
deriving DecidableEq

/-- A `DocumentChange`, with each document version represented by its token stream. -/
inductive DocumentChange where
  | Deletion (docid : Nat) (current : List Token)
  | Update (docid : Nat) (current new : List Token)
  | Insertion (docid : Nat) (new : List Token)
deriving DecidableEq

/-- `tokenize_document` over a version of the document, routing every token through the
del-side `token_fn` closure of `extract_document_change`. -/
def tokenizeDel (ea : List String) (docid : Nat) :
    List Token → WordDocidsCachedSorters → Option WordDocidsCachedSorters
  | [], s => some s
  | t :: rest, s =>
    (s.insert_del_u32 t.fid t.pos t.word (is_exact_attribute ea t.fname) docid).bind
      (fun s' => tokenizeDel ea docid rest s')

/-- `tokenize_document` over a version of the document, routing every token through the
add-side `token_fn` closure of `extract_document_change`. -/
def tokenizeAdd (ea : List String) (docid : Nat) :
    List Token → WordDocidsCachedSorters → Option WordDocidsCachedSorters
  | [], s => some s
  | t :: rest, s =>
    (s.insert_add_u32 t.fid t.pos t.word (is_exact_attribute ea t.fname) docid).bind
      (fun s' => tokenizeAdd ea docid rest s')

/-- `WordDocidsExtractors::extract_document_change`: tokenize the relevant document
versions through the del/add closures and finish with `flush_fid_word_count`.  The
exact-attribute configuration `ea` models `index.exact_attributes(rtxn)?`. -/
def extract_document_change (ea : List String) (s : WordDocidsCachedSorters) :
    DocumentChange → Option WordDocidsCachedSorters
  | DocumentChange.Deletion docid current =>
    (tokenizeDel ea docid current s).bind (fun s1 => s1.flush_fid_word_count)
  | DocumentChange.Update docid current new =>
    (tokenizeDel ea docid current s).bind (fun s1 =>
      (tokenizeAdd ea docid new s1).bind (fun s2 => s2.flush_fid_word_count))
  | DocumentChange.Insertion docid new =>
    (tokenizeAdd ea docid new s).bind (fun s1 => s1.flush_fid_word_count)

/-- Process a sequence of document changes on one accumulator, as the extraction driver
does for the changes assigned to one worker thread. -/
def processChanges (ea : List String) :
    WordDocidsCachedSorters → List DocumentChange → Option WordDocidsCachedSorters
  | s, [] => some s
  | s, c :: rest =>
    (extract_document_change ea s c).bind (fun s' => processChanges ea s' rest)

/-- The del-side writes `flushEntries` appends for a given tally, in tally order. -/
def flushDelWrites (entries : List (Nat × Nat × Nat)) (docid : Nat) :
    List (List Nat × Nat) :=
  entries.filterMap (fun e =>
    if e.2.1 ≠ e.2.2 ∧ e.2.1 ≤ MAX_COUNTED_WORDS then some (fidCountKey e.1 e.2.1, docid)
    else none)

/-- The add-side writes `flushEntries` appends for a given tally, in tally order. -/
def flushAddWrites (entries : List (Nat × Nat × Nat)) (docid : Nat) :
    List (List Nat × Nat) :=
  entries.filterMap (fun e =>
    if e.2.1 ≠ e.2.2 ∧ e.2.2 ≤ MAX_COUNTED_WORDS then some (fidCountKey e.1 e.2.2, docid)
    else none)

/-- Writes a token stream sends to `word_docids` (the non-exact tokens). -/
def plainWordWrites (ea : List String) (toks : List Token) (docid : Nat) :
    List (List Nat × Nat) :=
  (toks.filter (fun t => !(is_exact_attribute ea t.fname))).map (fun t => (t.word, docid))

/-- Writes a token stream sends to `exact_word_docids` (the exact tokens). -/
def exactWordWrites (ea : List String) (toks : List Token) (docid : Nat) :
    List (List Nat × Nat) :=
  (toks.filter (fun t => is_exact_attribute ea t.fname)).map (fun t => (t.word, docid))

/-- Writes a token stream sends to `word_fid_docids`. -/
def fidStreamWrites (toks : List Token) (docid : Nat) : List (List Nat × Nat) :=
  toks.map (fun t => (wordFidKey t.word t.fid, docid))

/-- Writes a token stream sends to `word_position_docids`. -/
def positionStreamWrites (toks : List Token) (docid : Nat) : List (List Nat × Nat) :=
  toks.map (fun t => (wordPositionKey t.word t.pos, docid))

/-- The `fid_word_count` tally after a deletion pass over a token stream. -/
def tallyDelToks (toks : List Token) : List (Nat × Nat × Nat) :=
  toks.foldl (fun m t => bumpDel m t.fid) []

/-- The `fid_word_count` tally after an insertion pass over a token stream. -/
def tallyAddToks (toks : List Token) : List (Nat × Nat × Nat) :=
  toks.foldl (fun m t => bumpAdd m t.fid) []

/-- The `fid_word_count` tally after the del pass over the current version and the add
pass over the new version of an update. -/
def tallyUpdToks (current new : List Token) : List (Nat × Nat × Nat) :=
  new.foldl (fun m t => bumpAdd m t.fid) (tallyDelToks current)

/-- `current_docid` after a token pass: unchanged for an empty stream, else the processed
document's id. -/
def afterDocid (toks : List Token) (prev : Option Nat) (docid : Nat) : Option Nat :=
  if toks.isEmpty then prev else some docid

/-- Byte-lexicographic strict order on byte strings (the grenad sorter key order). -/
def lexLt : List Nat → List Nat → Bool
  | [], [] => false
  | [], _ :: _ => true
  | _ :: _, [] => false
  | a :: xs, b :: ys => decide (a < b) || (a == b && lexLt xs ys)

/-- The first-match association lookup backing `FieldidsWeightsMap::weight`
(`self.map.get(&fid).copied()` on the HashMap, rendered on an association list). -/
def assocFind : List (Nat × Nat) → Nat → Option Nat
  | [], _ => none
  | (k, v) :: rest, fid => if k = fid then some v else assocFind rest fid

/-- `HashMap::insert` on the association list: replace the entry in place and return the
old value, or append a fresh entry and return `none`. -/
def assocInsert : List (Nat × Nat) → Nat → Nat → Option Nat × List (Nat × Nat)
  | [], fid, w => (none, [(fid, w)])
  | (k, v) :: rest, fid, w =>
    if k = fid then (some v, (fid, w) :: rest)
    else
      let r := assocInsert rest fid w
      (r.1, (k, v) :: r.2)

/-- `HashMap::remove` on the association list: drop the entry and return its value. -/
def assocRemove : List (Nat × Nat) → Nat → Option Nat × List (Nat × Nat)
  | [], _ => (none, [])
  | (k, v) :: rest, fid =>
    if k = fid then (some v, rest)
    else
      let r := assocRemove rest fid
      (r.1, (k, v) :: r.2)

/-- `FieldidsWeightsMap`: the searchable-field id to weight map, its HashMap rendered as
an association list (HashMap keys are unique; see the `Nodup` hypotheses). -/
structure FieldidsWeightsMap where
  map : List (Nat × Nat)
deriving DecidableEq

/-- `FieldidsWeightsMap::insert`: the updated map together with the returned old value. -/
def FieldidsWeightsMap.insert (m : FieldidsWeightsMap) (fid w : Nat) :
    Option Nat × FieldidsWeightsMap :=
  ((assocInsert m.map fid w).1, ⟨(assocInsert m.map fid w).2⟩)

/-- `FieldidsWeightsMap::remove`: the updated map together with the returned old value. -/
def FieldidsWeightsMap.remove (m : FieldidsWeightsMap) (fid : Nat) :
    Option Nat × FieldidsWeightsMap :=
  ((assocRemove m.map fid).1, ⟨(assocRemove m.map fid).2⟩)

/-- `FieldidsWeightsMap::weight`. -/
def FieldidsWeightsMap.weight (m : FieldidsWeightsMap) (fid : Nat) : Option Nat :=
  assocFind m.map fid

/-- `PromptFallbackStrategy`; the `#[default]` variant is `Error`. -/
inductive PromptFallbackStrategy where
  | Fallback
  | Skip
  | Error
deriving DecidableEq

instance : Inhabited PromptFallbackStrategy :=
  ⟨PromptFallbackStrategy.Error⟩

/-- Modelled from the spec: the liquid template parser and the `template_checker` render
check used by `Prompt::new` live in the external `liquid` crate and in a module that is
not among the provided sources; spec section 1 treats the prompt/template subsystem's
collaborators as external.  Both are deterministic functions of the template text, so
they are modelled as two predicates on it: whether the text parses, and whether the
parsed template renders against the field checker. -/
structure LiquidEngine where
  canParse : String → Bool
  renderChecks : String → Bool

/-- The `Prompt` struct; the opaque parsed `liquid::Template` is determined by the
template text and is represented by that text. -/
structure Prompt where
  template : String
  template_text : String
  strategy : PromptFallbackStrategy
  fallback : String
deriving DecidableEq

/-- The `PromptData` struct. -/
structure PromptData where
  template : String
  strategy : PromptFallbackStrategy
  fallback : String
deriving DecidableEq

/-- `Prompt::new`: parse the template (an error is `none`), fill the defaulted fields,
then run the template-checker render (an error is `none`). -/
def Prompt.new (eng : LiquidEngine) (template : String)
    (strategy : Option PromptFallbackStrategy) (fallback : Option String) :
    Option Prompt :=
  if eng.canParse template then
    let this : Prompt :=
      { template := template
      , template_text := template
      , strategy := strategy.getD default
      , fallback := fallback.getD "" }
    if eng.renderChecks this.template then some this else none
  else none

/-- `default_template_text()` (braces of the liquid syntax written as byte escapes). -/
def default_template_text : String :=
  "\x7b% for field in fields %\x7d \x7b\x7b field.name \x7d\x7d: \x7b\x7b field.value \x7d\x7d\n\x7b% endfor %\x7d"

/-- `default_fallback()` -/
def default_fallback : String := "<MISSING>"

/-- `<Prompt as Default>::default()`. -/
def Prompt.defaultValue : Prompt :=
  { template := default_template_text
  , template_text := default_template_text
  , strategy := default
  , fallback := default_fallback }

/-- `impl From<Prompt> for PromptData`. -/
def PromptData.fromPrompt (value : Prompt) : PromptData :=
  { template := value.template_text, strategy := value.strategy, fallback := value.fallback }

/-- `impl TryFrom<PromptData> for Prompt`. -/
def Prompt.tryFrom (eng : LiquidEngine) (value : PromptData) : Option Prompt :=
  Prompt.new eng value.template (some value.strategy) (some value.fallback)

/-- The states of `WordDocidsCachedSorters` reachable from `new()` by any sequence of
`insert_add_u32`, `insert_del_u32` and `flush_fid_word_count` calls. -/
inductive Reachable : WordDocidsCachedSorters → Prop where
  | init : Reachable WordDocidsCachedSorters.new
  | add {s s' : WordDocidsCachedSorters} {f p d : Nat} {w : List Nat} {ex : Bool} :
      Reachable s → s.insert_add_u32 f p w ex d = some s' → Reachable s'
  | del {s s' : WordDocidsCachedSorters} {f p d : Nat} {w : List Nat} {ex : Bool} :
      Reachable s → s.insert_del_u32 f p w ex d = some s' → Reachable s'
  | flush {s s' : WordDocidsCachedSorters} :
      Reachable s → s.flush_fid_word_count = some s' → Reachable s'

/-- Iterating `bumpAdd` on one field id, innermost application first. -/
def bumpAddIter (fid : Nat) : List (Nat × Nat × Nat) → Nat → List (Nat × Nat × Nat)
  | m, 0 => m
  | m, k + 1 => bumpAddIter fid (bumpAdd m fid) k

/-- Between two accumulator states: every `fid_word_count_docids` write of the second is
either a write of the first or has its count byte (key byte 2) bounded by 30. -/
def FwcLe (a b : WordDocidsCachedSorters) : Prop :=
  (∀ x ∈ b.fid_word_count_docids.delWrites,
    x ∈ a.fid_word_count_docids.delWrites ∨ x.1.getD 2 0 ≤ 30) ∧
  (∀ x ∈ b.fid_word_count_docids.addWrites,
    x ∈ a.fid_word_count_docids.addWrites ∨ x.1.getD 2 0 ≤ 30)

/-! ### Basic facts about the flush loop -/

theorem fidCountKey_getD (fid cnt : Nat) : (fidCountKey fid cnt).getD 2 0 = cnt % 256 :=
  rfl

theorem flushEntries_some (d : Nat) (entries : List (Nat × Nat × Nat)) (c : CboCachedSorter) :
    flushEntries (some d) entries c =
      some ⟨c.delWrites ++ flushDelWrites entries d, c.addWrites ++ flushAddWrites entries d⟩ := by
  induction entries generalizing c with
  | nil =>
    simp [flushEntries, flushDelWrites, flushAddWrites]
  | cons e rest ih =>
    obtain ⟨fid, cc, nc⟩ := e
    by_cases h1 : cc = nc
    · simp [flushEntries, h1, ih, flushDelWrites, flushAddWrites]
    · by_cases h2 : cc ≤ MAX_COUNTED_WORDS <;> by_cases h3 : nc ≤ MAX_COUNTED_WORDS <;>
        simp [flushEntries, h1, h2, h3, ih, flushDelWrites, flushAddWrites,
          CboCachedSorter.insertDel, CboCachedSorter.insertAdd]

theorem flushDelWrites_bound (entries : List (Nat × Nat × Nat)) (d : Nat) :
    ∀ x ∈ flushDelWrites entries d, x.1.getD 2 0 ≤ 30 := by
  intro x hx
  simp only [flushDelWrites, List.mem_filterMap] at hx
  obtain ⟨e, _, hcond⟩ := hx
  split at hcond
  · rename_i hc
    cases hcond
    calc (fidCountKey e.1 e.2.1).getD 2 0 = e.2.1 % 256 := fidCountKey_getD _ _
      _ ≤ e.2.1 := Nat.mod_le _ _
      _ ≤ 30 := hc.2
  · cases hcond

theorem flushAddWrites_bound (entries : List (Nat × Nat × Nat)) (d : Nat) :
    ∀ x ∈ flushAddWrites entries d, x.1.getD 2 0 ≤ 30 := by
  intro x hx
  simp only [flushAddWrites, List.mem_filterMap] at hx
  obtain ⟨e, _, hcond⟩ := hx
  split at hcond
  · rename_i hc
    cases hcond
    calc (fidCountKey e.1 e.2.2).getD 2 0 = e.2.2 % 256 := fidCountKey_getD _ _
      _ ≤ e.2.2 := Nat.mod_le _ _
      _ ≤ 30 := hc.2
  · cases hcond


theorem flushEntries_none {entries : List (Nat × Nat × Nat)} {c c' : CboCachedSorter}
    (h : flushEntries none entries c = some c') : c' = c := by
  induction entries generalizing c with
  | nil =>
    simp only [flushEntries, Option.some.injEq] at h
    exact h.symm
  | cons e rest ih =>
    obtain ⟨fid, cc, nc⟩ := e
    by_cases h1 : cc = nc
    · simp only [flushEntries, h1, ne_eq, not_true_eq_false, if_false] at h
      exact ih h
    · by_cases h2 : cc ≤ MAX_COUNTED_WORDS <;> by_cases h3 : nc ≤ MAX_COUNTED_WORDS <;>
        simp only [flushEntries, ne_eq, h1, not_false_eq_true, if_true, h2, h3,
          if_false] at h <;>
        first
          | exact ih h
          | cases h

theorem flushEntries_bound {cur : Option Nat} {entries : List (Nat × Nat × Nat)}
    {c c' : CboCachedSorter} (h : flushEntries cur entries c = some c') :
    (∀ x ∈ c'.delWrites, x ∈ c.delWrites ∨ x.1.getD 2 0 ≤ 30) ∧
    (∀ x ∈ c'.addWrites, x ∈ c.addWrites ∨ x.1.getD 2 0 ≤ 30) := by
  cases cur with
  | some d =>
    rw [flushEntries_some] at h
    cases h
    constructor
    · intro x hx
      rcases List.mem_append.1 hx with hx | hx
      · exact Or.inl hx
      · exact Or.inr (flushDelWrites_bound _ _ x hx)
    · intro x hx
      rcases List.mem_append.1 hx with hx | hx
      · exact Or.inl hx
      · exact Or.inr (flushAddWrites_bound _ _ x hx)
  | none =>
    cases flushEntries_none h
    exact ⟨fun x hx => Or.inl hx, fun x hx => Or.inl hx⟩

/-! ### Characterisations of `flush_fid_word_count` -/

theorem flush_eq {s : WordDocidsCachedSorters} {d : Nat}
    (h : s.current_docid = some d ∨ s.fid_word_count = []) :
    s.flush_fid_word_count = some { s with
      fid_word_count_docids :=
        ⟨s.fid_word_count_docids.delWrites ++ flushDelWrites s.fid_word_count d,
         s.fid_word_count_docids.addWrites ++ flushAddWrites s.fid_word_count d⟩
      fid_word_count := [] } := by
  rcases h with h | h
  · rw [WordDocidsCachedSorters.flush_fid_word_count, h, flushEntries_some]
  · rw [WordDocidsCachedSorters.flush_fid_word_count, h]
    simp [flushEntries, flushDelWrites, flushAddWrites]

theorem flush_empty {s : WordDocidsCachedSorters} (h : s.fid_word_count = []) :
    s.flush_fid_word_count = some s := by
  rw [flush_eq (d := 0) (Or.inr h), h]
  simp only [flushDelWrites, flushAddWrites, List.filterMap_nil, List.append_nil,
    Option.some.injEq]
  rw [← h]

/-! ### Characterisations of the two token-level inserts -/

theorem insert_add_eq {s : WordDocidsCachedSorters} {f p docid : Nat} {w : List Nat}
    {ex : Bool} (h : s.current_docid = some docid ∨ s.fid_word_count = []) :
    s.insert_add_u32 f p w ex docid = some
      { word_fid_docids := s.word_fid_docids.insertAdd (wordFidKey w f) docid
      , word_docids := if ex then s.word_docids else s.word_docids.insertAdd w docid
      , exact_word_docids :=
          if ex then s.exact_word_docids.insertAdd w docid else s.exact_word_docids
      , word_position_docids := s.word_position_docids.insertAdd (wordPositionKey w p) docid
      , fid_word_count_docids := s.fid_word_count_docids
      , fid_word_count := bumpAdd s.fid_word_count f
      , current_docid := some docid } := by
  rcases h with h | h
  · have hd : differentDocid s.current_docid docid = false := by
      simp [differentDocid, h]
    cases ex <;> simp [WordDocidsCachedSorters.insert_add_u32, hd]
  · by_cases hd : differentDocid s.current_docid docid
    · cases ex <;> simp [WordDocidsCachedSorters.insert_add_u32, hd, flush_empty, h]
    · cases ex <;> simp [WordDocidsCachedSorters.insert_add_u32, hd]

theorem insert_del_eq {s : WordDocidsCachedSorters} {f p docid : Nat} {w : List Nat}
    {ex : Bool} (h : s.current_docid = some docid ∨ s.fid_word_count = []) :
    s.insert_del_u32 f p w ex docid = some
      { word_fid_docids := s.word_fid_docids.insertDel (wordFidKey w f) docid
      , word_docids := if ex then s.word_docids else s.word_docids.insertDel w docid
      , exact_word_docids :=
          if ex then s.exact_word_docids.insertDel w docid else s.exact_word_docids
      , word_position_docids := s.word_position_docids.insertDel (wordPositionKey w p) docid
      , fid_word_count_docids := s.fid_word_count_docids
      , fid_word_count := bumpDel s.fid_word_count f
      , current_docid := some docid } := by
  rcases h with h | h
  · have hd : differentDocid s.current_docid docid = false := by
      simp [differentDocid, h]
    cases ex <;> simp [WordDocidsCachedSorters.insert_del_u32, hd]
  · by_cases hd : differentDocid s.current_docid docid
    · cases ex <;> simp [WordDocidsCachedSorters.insert_del_u32, hd, flush_empty, h]
    · cases ex <;> simp [WordDocidsCachedSorters.insert_del_u32, hd]

theorem afterDocid_some (toks : List Token) (docid : Nat) :
    afterDocid toks (some docid) docid = some docid := by
  simp [afterDocid]

theorem optionBindSome {α β : Type} (a : α) (f : α → Option β) : (some a).bind f = f a :=
  rfl

/-! ### Characterisation of a whole token pass -/

theorem tokenizeAdd_eq (ea : List String) (docid : Nat) (toks : List Token)
    {s : WordDocidsCachedSorters}
    (h : s.current_docid = some docid ∨ s.fid_word_count = []) :
    tokenizeAdd ea docid toks s = some
      { word_fid_docids := ⟨s.word_fid_docids.delWrites,
          s.word_fid_docids.addWrites ++ fidStreamWrites toks docid⟩
      , word_docids := ⟨s.word_docids.delWrites,
          s.word_docids.addWrites ++ plainWordWrites ea toks docid⟩
      , exact_word_docids := ⟨s.exact_word_docids.delWrites,
          s.exact_word_docids.addWrites ++ exactWordWrites ea toks docid⟩
      , word_position_docids := ⟨s.word_position_docids.delWrites,
          s.word_position_docids.addWrites ++ positionStreamWrites toks docid⟩
      , fid_word_count_docids := s.fid_word_count_docids
      , fid_word_count := toks.foldl (fun m t => bumpAdd m t.fid) s.fid_word_count
      , current_docid := afterDocid toks s.current_docid docid } := by
  induction toks generalizing s with
  | nil =>
    simp [tokenizeAdd, fidStreamWrites, plainWordWrites, exactWordWrites,
      positionStreamWrites, afterDocid]
  | cons t rest ih =>
    rw [tokenizeAdd, insert_add_eq h, optionBindSome, ih (Or.inl rfl)]
    by_cases hx : is_exact_attribute ea t.fname <;>
      simp [hx, fidStreamWrites, plainWordWrites, exactWordWrites, positionStreamWrites,
        CboCachedSorter.insertAdd, afterDocid_some, afterDocid]

theorem tokenizeDel_eq (ea : List String) (docid : Nat) (toks : List Token)
    {s : WordDocidsCachedSorters}
    (h : s.current_docid = some docid ∨ s.fid_word_count = []) :
    tokenizeDel ea docid toks s = some
      { word_fid_docids := ⟨s.word_fid_docids.delWrites ++ fidStreamWrites toks docid,
          s.word_fid_docids.addWrites⟩
      , word_docids := ⟨s.word_docids.delWrites ++ plainWordWrites ea toks docid,
          s.word_docids.addWrites⟩
      , exact_word_docids := ⟨s.exact_word_docids.delWrites ++ exactWordWrites ea toks docid,
          s.exact_word_docids.addWrites⟩
      , word_position_docids := ⟨s.word_position_docids.delWrites ++ positionStreamWrites toks docid,
          s.word_position_docids.addWrites⟩
      , fid_word_count_docids := s.fid_word_count_docids
      , fid_word_count := toks.foldl (fun m t => bumpDel m t.fid) s.fid_word_count
      , current_docid := afterDocid toks s.current_docid docid } := by
  induction toks generalizing s with
  | nil =>
    simp [tokenizeDel, fidStreamWrites, plainWordWrites, exactWordWrites,
      positionStreamWrites, afterDocid]
  | cons t rest ih =>
    rw [tokenizeDel, insert_del_eq h, optionBindSome, ih (Or.inl rfl)]
    by_cases hx : is_exact_attribute ea t.fname <;>
      simp [hx, fidStreamWrites, plainWordWrites, exactWordWrites, positionStreamWrites,
        CboCachedSorter.insertDel, afterDocid_some, afterDocid]

theorem extract_deletion_unfold (ea : List String) (s : WordDocidsCachedSorters)
    (docid : Nat) (toks : List Token) :
    extract_document_change ea s (DocumentChange.Deletion docid toks) =
      (tokenizeDel ea docid toks s).bind
        (fun s1 => s1.flush_fid_word_count) :=
  rfl

theorem extract_insertion_unfold (ea : List String) (s : WordDocidsCachedSorters)
    (docid : Nat) (toks : List Token) :
    extract_document_change ea s (DocumentChange.Insertion docid toks) =
      (tokenizeAdd ea docid toks s).bind
        (fun s1 => s1.flush_fid_word_count) :=
  rfl

theorem extract_update_unfold (ea : List String) (s : WordDocidsCachedSorters)
    (docid : Nat) (current new : List Token) :
    extract_document_change ea s (DocumentChange.Update docid current new) =
      (tokenizeDel ea docid current s).bind (fun s1 =>
        (tokenizeAdd ea docid new s1).bind (fun s2 => s2.flush_fid_word_count)) :=
  rfl

/-! ### Characterisation of one full document change from a drained tally -/

theorem extract_deletion_eq (ea : List String) {s : WordDocidsCachedSorters}
    (docid : Nat) (toks : List Token) (h : s.fid_word_count = []) :
    extract_document_change ea s (DocumentChange.Deletion docid toks) = some
      { word_fid_docids := ⟨s.word_fid_docids.delWrites ++ fidStreamWrites toks docid,
          s.word_fid_docids.addWrites⟩
      , word_docids := ⟨s.word_docids.delWrites ++ plainWordWrites ea toks docid,
          s.word_docids.addWrites⟩
      , exact_word_docids := ⟨s.exact_word_docids.delWrites ++ exactWordWrites ea toks docid,
          s.exact_word_docids.addWrites⟩
      , word_position_docids :=
          ⟨s.word_position_docids.delWrites ++ positionStreamWrites toks docid,
           s.word_position_docids.addWrites⟩
      , fid_word_count_docids :=
          ⟨s.fid_word_count_docids.delWrites ++ flushDelWrites (tallyDelToks toks) docid,
           s.fid_word_count_docids.addWrites ++ flushAddWrites (tallyDelToks toks) docid⟩
      , fid_word_count := []
      , current_docid := afterDocid toks s.current_docid docid } := by
  have h1 := tokenizeDel_eq ea docid toks (s := s) (Or.inr h)
  rw [h] at h1
  rw [extract_deletion_unfold, h1, optionBindSome]
  refine (flush_eq (d := docid) ?_).trans ?_
  · cases toks with
    | nil => exact Or.inr rfl
    | cons t rest => exact Or.inl (by simp [afterDocid])
  · rfl

theorem extract_insertion_eq (ea : List String) {s : WordDocidsCachedSorters}
    (docid : Nat) (toks : List Token) (h : s.fid_word_count = []) :
    extract_document_change ea s (DocumentChange.Insertion docid toks) = some
      { word_fid_docids := ⟨s.word_fid_docids.delWrites,
          s.word_fid_docids.addWrites ++ fidStreamWrites toks docid⟩
      , word_docids := ⟨s.word_docids.delWrites,
          s.word_docids.addWrites ++ plainWordWrites ea toks docid⟩
      , exact_word_docids := ⟨s.exact_word_docids.delWrites,
          s.exact_word_docids.addWrites ++ exactWordWrites ea toks docid⟩
      , word_position_docids := ⟨s.word_position_docids.delWrites,
          s.word_position_docids.addWrites ++ positionStreamWrites toks docid⟩
      , fid_word_count_docids :=
          ⟨s.fid_word_count_docids.delWrites ++ flushDelWrites (tallyAddToks toks) docid,
           s.fid_word_count_docids.addWrites ++ flushAddWrites (tallyAddToks toks) docid⟩
      , fid_word_count := []
      , current_docid := afterDocid toks s.current_docid docid } := by
  have h1 := tokenizeAdd_eq ea docid toks (s := s) (Or.inr h)
  rw [h] at h1
  rw [extract_insertion_unfold, h1, optionBindSome]
  refine (flush_eq (d := docid) ?_).trans ?_
  · cases toks with
    | nil => exact Or.inr rfl
    | cons t rest => exact Or.inl (by simp [afterDocid])
  · rfl

theorem extract_update_eq (ea : List String) {s : WordDocidsCachedSorters}
    (docid : Nat) (current new : List Token) (h : s.fid_word_count = []) :
    extract_document_change ea s (DocumentChange.Update docid current new) = some
      { word_fid_docids := ⟨s.word_fid_docids.delWrites ++ fidStreamWrites current docid,
          s.word_fid_docids.addWrites ++ fidStreamWrites new docid⟩
      , word_docids := ⟨s.word_docids.delWrites ++ plainWordWrites ea current docid,
          s.word_docids.addWrites ++ plainWordWrites ea new docid⟩
      , exact_word_docids := ⟨s.exact_word_docids.delWrites ++ exactWordWrites ea current docid,
          s.exact_word_docids.addWrites ++ exactWordWrites ea new docid⟩
      , word_position_docids :=
          ⟨s.word_position_docids.delWrites ++ positionStreamWrites current docid,
           s.word_position_docids.addWrites ++ positionStreamWrites new docid⟩
      , fid_word_count_docids :=
          ⟨s.fid_word_count_docids.delWrites ++ flushDelWrites (tallyUpdToks current new) docid,
           s.fid_word_count_docids.addWrites ++ flushAddWrites (tallyUpdToks current new) docid⟩
      , fid_word_count := []
      , current_docid := afterDocid new (afterDocid current s.current_docid docid) docid } := by
  have h1 := tokenizeDel_eq ea docid current (s := s) (Or.inr h)
  rw [h] at h1
  rw [extract_update_unfold, h1, optionBindSome]
  have h2 := tokenizeAdd_eq ea docid new (s :=
    { word_fid_docids := ⟨s.word_fid_docids.delWrites ++ fidStreamWrites current docid,
        s.word_fid_docids.addWrites⟩
    , word_docids := ⟨s.word_docids.delWrites ++ plainWordWrites ea current docid,
        s.word_docids.addWrites⟩
    , exact_word_docids := ⟨s.exact_word_docids.delWrites ++ exactWordWrites ea current docid,
        s.exact_word_docids.addWrites⟩
    , word_position_docids :=
        ⟨s.word_position_docids.delWrites ++ positionStreamWrites current docid,
         s.word_position_docids.addWrites⟩
    , fid_word_count_docids := s.fid_word_count_docids
    , fid_word_count := List.foldl (fun m t => bumpDel m t.fid) [] current
    , current_docid := afterDocid current s.current_docid docid })
    (by cases current with
        | nil => exact Or.inr rfl
        | cons t rest => exact Or.inl (by simp [afterDocid]))
  rw [h2, optionBindSome]
  refine (flush_eq (d := docid) ?_).trans ?_
  · cases new with
    | nil =>
      cases current with
      | nil => exact Or.inr rfl
      | cons t rest => exact Or.inl (by simp [afterDocid])
    | cons t rest => exact Or.inl (by simp [afterDocid])
  · rfl

/-! ### Tally invariants -/

theorem bumpDel_snd {m : List (Nat × Nat × Nat)} {f : Nat}
    (h : ∀ e ∈ m, e.2.2 = 0) : ∀ e ∈ bumpDel m f, e.2.2 = 0 := by
  induction m with
  | nil =>
    intro e he
    simp only [bumpDel, List.mem_singleton] at he
    subst he
    rfl
  | cons a rest ih =>
    obtain ⟨g, c, n⟩ := a
    intro e he
    by_cases hg : g = f
    · simp only [bumpDel, hg, if_true, List.mem_cons] at he
      rcases he with he | he
      · subst he
        exact h (f, c, n) (by simp [hg])
      · exact h e (List.mem_cons_of_mem _ he)
    · simp only [bumpDel, hg, if_false, List.mem_cons] at he
      rcases he with he | he
      · subst he
        exact h (g, c, n) (List.mem_cons_self _ _)
      · exact ih (fun e' he' => h e' (List.mem_cons_of_mem _ he')) e he

theorem bumpAdd_fst {m : List (Nat × Nat × Nat)} {f : Nat}
    (h : ∀ e ∈ m, e.2.1 = 0) : ∀ e ∈ bumpAdd m f, e.2.1 = 0 := by
  induction m with
  | nil =>
    intro e he
    simp only [bumpAdd, List.mem_singleton] at he
    subst he
    rfl
  | cons a rest ih =>
    obtain ⟨g, c, n⟩ := a
    intro e he
    by_cases hg : g = f
    · simp only [bumpAdd, hg, if_true, List.mem_cons] at he
      rcases he with he | he
      · subst he
        exact h (f, c, n) (by simp [hg])
      · exact h e (List.mem_cons_of_mem _ he)
    · simp only [bumpAdd, hg, if_false, List.mem_cons] at he
      rcases he with he | he
      · subst he
        exact h (g, c, n) (List.mem_cons_self _ _)
      · exact ih (fun e' he' => h e' (List.mem_cons_of_mem _ he')) e he

theorem tallyDelToks_snd (toks : List Token) : ∀ e ∈ tallyDelToks toks, e.2.2 = 0 := by
  have main : ∀ (l : List Token) (m : List (Nat × Nat × Nat)), (∀ e ∈ m, e.2.2 = 0) →
      ∀ e ∈ l.foldl (fun m t => bumpDel m t.fid) m, e.2.2 = 0 := by
    intro l
    induction l with
    | nil => intro m h; simpa using h
    | cons t rest ih => intro m h; exact ih _ (bumpDel_snd h)
  exact main toks [] (by simp)

theorem tallyAddToks_fst (toks : List Token) : ∀ e ∈ tallyAddToks toks, e.2.1 = 0 := by
  have main : ∀ (l : List Token) (m : List (Nat × Nat × Nat)), (∀ e ∈ m, e.2.1 = 0) →
      ∀ e ∈ l.foldl (fun m t => bumpAdd m t.fid) m, e.2.1 = 0 := by
    intro l
    induction l with
    | nil => intro m h; simpa using h
    | cons t rest ih => intro m h; exact ih _ (bumpAdd_fst h)
  exact main toks [] (by simp)

theorem flushAddWrites_del_tally (toks : List Token) (docid : Nat) :
    ∀ x ∈ flushAddWrites (tallyDelToks toks) docid, x.1.getD 2 0 = 0 := by
  intro x hx
  simp only [flushAddWrites, List.mem_filterMap] at hx
  obtain ⟨e, he, hcond⟩ := hx
  have hz := tallyDelToks_snd toks e he
  split at hcond
  · cases hcond
    rw [fidCountKey_getD, hz]
  · cases hcond

theorem flushDelWrites_add_tally (toks : List Token) (docid : Nat) :
    ∀ x ∈ flushDelWrites (tallyAddToks toks) docid, x.1.getD 2 0 = 0 := by
  intro x hx
  simp only [flushDelWrites, List.mem_filterMap] at hx
  obtain ⟨e, he, hcond⟩ := hx
  have hz := tallyAddToks_fst toks e he
  split at hcond
  · cases hcond
    rw [fidCountKey_getD, hz]
  · cases hcond

/-! ### Shape of a single insert from an arbitrary state -/

theorem insert_add_shape (s : WordDocidsCachedSorters) (f p : Nat) (w : List Nat)
    (ex : Bool) (docid : Nat) :
    ∃ s', s.insert_add_u32 f p w ex docid = some s' ∧
      s'.word_docids = (if ex then s.word_docids else s.word_docids.insertAdd w docid) ∧
      s'.exact_word_docids =
        (if ex then s.exact_word_docids.insertAdd w docid else s.exact_word_docids) ∧
      s'.word_fid_docids = s.word_fid_docids.insertAdd (wordFidKey w f) docid ∧
      s'.word_position_docids =
        s.word_position_docids.insertAdd (wordPositionKey w p) docid ∧
      s'.current_docid = some docid ∧
      (∀ x ∈ s'.fid_word_count_docids.delWrites,
        x ∈ s.fid_word_count_docids.delWrites ∨ x.1.getD 2 0 ≤ 30) ∧
      (∀ x ∈ s'.fid_word_count_docids.addWrites,
        x ∈ s.fid_word_count_docids.addWrites ∨ x.1.getD 2 0 ≤ 30) := by
  by_cases hd : differentDocid s.current_docid docid
  · obtain ⟨id, hid⟩ : ∃ id, s.current_docid = some id := by
      cases hcur : s.current_docid with
      | none => rw [hcur] at hd; simp [differentDocid] at hd
      | some id => exact ⟨id, rfl⟩
    cases ex <;>
      simp only [WordDocidsCachedSorters.insert_add_u32,
        WordDocidsCachedSorters.flush_fid_word_count, hd, if_true, Bool.false_eq_true,
        if_false] <;>
      rw [hid, flushEntries_some] <;>
      refine ⟨_, rfl, rfl, rfl, rfl, rfl, rfl, ?_, ?_⟩ <;>
      intro x hx <;>
      rcases List.mem_append.1 hx with hx | hx
    · exact Or.inl hx
    · exact Or.inr (flushDelWrites_bound _ _ x hx)
    · exact Or.inl hx
    · exact Or.inr (flushAddWrites_bound _ _ x hx)
    · exact Or.inl hx
    · exact Or.inr (flushDelWrites_bound _ _ x hx)
    · exact Or.inl hx
    · exact Or.inr (flushAddWrites_bound _ _ x hx)
  · cases ex <;>
      simp only [WordDocidsCachedSorters.insert_add_u32, hd, Bool.false_eq_true, if_false,
        ite_false, ite_true] <;>
      exact ⟨_, rfl, rfl, rfl, rfl, rfl, rfl, fun x hx => Or.inl hx, fun x hx => Or.inl hx⟩

theorem insert_del_shape (s : WordDocidsCachedSorters) (f p : Nat) (w : List Nat)
    (ex : Bool) (docid : Nat) :
    ∃ s', s.insert_del_u32 f p w ex docid = some s' ∧
      s'.word_docids = (if ex then s.word_docids else s.word_docids.insertDel w docid) ∧
      s'.exact_word_docids =
        (if ex then s.exact_word_docids.insertDel w docid else s.exact_word_docids) ∧
      s'.word_fid_docids = s.word_fid_docids.insertDel (wordFidKey w f) docid ∧
      s'.word_position_docids =
        s.word_position_docids.insertDel (wordPositionKey w p) docid ∧
      s'.current_docid = some docid ∧
      (∀ x ∈ s'.fid_word_count_docids.delWrites,
        x ∈ s.fid_word_count_docids.delWrites ∨ x.1.getD 2 0 ≤ 30) ∧
      (∀ x ∈ s'.fid_word_count_docids.addWrites,
        x ∈ s.fid_word_count_docids.addWrites ∨ x.1.getD 2 0 ≤ 30) := by
  by_cases hd : differentDocid s.current_docid docid
  · obtain ⟨id, hid⟩ : ∃ id, s.current_docid = some id := by
      cases hcur : s.current_docid with
      | none => rw [hcur] at hd; simp [differentDocid] at hd
      | some id => exact ⟨id, rfl⟩
    cases ex <;>
      simp only [WordDocidsCachedSorters.insert_del_u32,
        WordDocidsCachedSorters.flush_fid_word_count, hd, if_true, Bool.false_eq_true,
        if_false] <;>
      rw [hid, flushEntries_some] <;>
      refine ⟨_, rfl, rfl, rfl, rfl, rfl, rfl, ?_, ?_⟩ <;>
      intro x hx <;>
      rcases List.mem_append.1 hx with hx | hx
    · exact Or.inl hx
    · exact Or.inr (flushDelWrites_bound _ _ x hx)
    · exact Or.inl hx
    · exact Or.inr (flushAddWrites_bound _ _ x hx)
    · exact Or.inl hx
    · exact Or.inr (flushDelWrites_bound _ _ x hx)
    · exact Or.inl hx
    · exact Or.inr (flushAddWrites_bound _ _ x hx)
  · cases ex <;>
      simp only [WordDocidsCachedSorters.insert_del_u32, hd, Bool.false_eq_true, if_false,
        ite_false, ite_true] <;>
      exact ⟨_, rfl, rfl, rfl, rfl, rfl, rfl, fun x hx => Or.inl hx, fun x hx => Or.inl hx⟩

/-! ### The `fid_word_count_docids` count bound is preserved by every step -/

theorem fwcLe_refl (a : WordDocidsCachedSorters) : FwcLe a a :=
  ⟨fun _ hx => Or.inl hx, fun _ hx => Or.inl hx⟩

theorem fwcLe_trans {a b c : WordDocidsCachedSorters} (h1 : FwcLe a b) (h2 : FwcLe b c) :
    FwcLe a c := by
  constructor <;> intro x hx
  · rcases h2.1 x hx with h | h
    · exact h1.1 x h
    · exact Or.inr h
  · rcases h2.2 x hx with h | h
    · exact h1.2 x h
    · exact Or.inr h

theorem flush_fwcLe {s s' : WordDocidsCachedSorters}
    (h : s.flush_fid_word_count = some s') : FwcLe s s' := by
  rw [WordDocidsCachedSorters.flush_fid_word_count] at h
  cases hfe : flushEntries s.current_docid s.fid_word_count s.fid_word_count_docids with
  | none => rw [hfe] at h; cases h
  | some sorter =>
    rw [hfe] at h
    cases h
    exact flushEntries_bound hfe

theorem insert_add_fwcLe {s s' : WordDocidsCachedSorters} {f p docid : Nat} {w : List Nat}
    {ex : Bool} (h : s.insert_add_u32 f p w ex docid = some s') : FwcLe s s' := by
  obtain ⟨s2, h2, _, _, _, _, _, hdel, hadd⟩ := insert_add_shape s f p w ex docid
  rw [h2] at h
  cases h
  exact ⟨hdel, hadd⟩

theorem insert_del_fwcLe {s s' : WordDocidsCachedSorters} {f p docid : Nat} {w : List Nat}
    {ex : Bool} (h : s.insert_del_u32 f p w ex docid = some s') : FwcLe s s' := by
  obtain ⟨s2, h2, _, _, _, _, _, hdel, hadd⟩ := insert_del_shape s f p w ex docid
  rw [h2] at h
  cases h
  exact ⟨hdel, hadd⟩

theorem tokenizeAdd_fwcLe (ea : List String) (docid : Nat) (toks : List Token) :
    ∀ {s s' : WordDocidsCachedSorters}, tokenizeAdd ea docid toks s = some s' →
      FwcLe s s' := by
  induction toks with
  | nil =>
    intro s s' h
    rw [tokenizeAdd] at h
    cases h
    exact fwcLe_refl _
  | cons t rest ih =>
    intro s s' h
    rw [tokenizeAdd] at h
    cases hins : s.insert_add_u32 t.fid t.pos t.word (is_exact_attribute ea t.fname) docid with
    | none => rw [hins] at h; cases h
    | some s1 =>
      rw [hins, optionBindSome] at h
      exact fwcLe_trans (insert_add_fwcLe hins) (ih h)

theorem tokenizeDel_fwcLe (ea : List String) (docid : Nat) (toks : List Token) :
    ∀ {s s' : WordDocidsCachedSorters}, tokenizeDel ea docid toks s = some s' →
      FwcLe s s' := by
  induction toks with
  | nil =>
    intro s s' h
    rw [tokenizeDel] at h
    cases h
    exact fwcLe_refl _
  | cons t rest ih =>
    intro s s' h
    rw [tokenizeDel] at h
    cases hins : s.insert_del_u32 t.fid t.pos t.word (is_exact_attribute ea t.fname) docid with
    | none => rw [hins] at h; cases h
    | some s1 =>
      rw [hins, optionBindSome] at h
      exact fwcLe_trans (insert_del_fwcLe hins) (ih h)

theorem extract_fwcLe {ea : List String} {s s' : WordDocidsCachedSorters}
    {c : DocumentChange} (h : extract_document_change ea s c = some s') : FwcLe s s' := by
  cases c with
  | Deletion docid toks =>
    rw [extract_deletion_unfold] at h
    cases htok : tokenizeDel ea docid toks s with
    | none => rw [htok] at h; cases h
    | some s1 =>
      rw [htok, optionBindSome] at h
      exact fwcLe_trans (tokenizeDel_fwcLe ea docid toks htok) (flush_fwcLe h)
  | Insertion docid toks =>
    rw [extract_insertion_unfold] at h
    cases htok : tokenizeAdd ea docid toks s with
    | none => rw [htok] at h; cases h
    | some s1 =>
      rw [htok, optionBindSome] at h
      exact fwcLe_trans (tokenizeAdd_fwcLe ea docid toks htok) (flush_fwcLe h)
  | Update docid current new =>
    rw [extract_update_unfold] at h
    cases h1 : tokenizeDel ea docid current s with
    | none => rw [h1] at h; cases h
    | some s1 =>
      rw [h1, optionBindSome] at h
      cases h2 : tokenizeAdd ea docid new s1 with
      | none => rw [h2] at h; cases h
      | some s2 =>
        rw [h2, optionBindSome] at h
        exact fwcLe_trans (tokenizeDel_fwcLe ea docid current h1)
          (fwcLe_trans (tokenizeAdd_fwcLe ea docid new h2) (flush_fwcLe h))

theorem processChanges_fwcLe (ea : List String) (changes : List DocumentChange) :
    ∀ {s s' : WordDocidsCachedSorters}, processChanges ea s changes = some s' →
      FwcLe s s' := by
  induction changes with
  | nil =>
    intro s s' h
    rw [processChanges] at h
    cases h
    exact fwcLe_refl _
  | cons c rest ih =>
    intro s s' h
    rw [processChanges] at h
    cases hc : extract_document_change ea s c with
    | none => rw [hc] at h; cases h
    | some s1 =>
      rw [hc, optionBindSome] at h
      exact fwcLe_trans (extract_fwcLe hc) (ih h)

/-! ### Per-field view of the tally and of the flushed writes -/

theorem filter_bumpAdd (m : List (Nat × Nat × Nat)) (f fid : Nat) :
    (bumpAdd m f).filter (fun e => e.1 == fid) =
      if f = fid then bumpAdd (m.filter (fun e => e.1 == fid)) fid
      else m.filter (fun e => e.1 == fid) := by
  induction m with
  | nil =>
    by_cases hf : f = fid <;> simp [bumpAdd, hf]
  | cons a rest ih =>
    obtain ⟨g, c, n⟩ := a
    by_cases hg : g = f
    · subst hg
      by_cases hf : g = fid
      · subst hf
        simp [bumpAdd, List.filter_cons]
      · simp [bumpAdd, hf, List.filter_cons]
    · by_cases hgfid : g = fid
      · subst hgfid
        have hf : ¬f = g := fun h => hg h.symm
        simp [bumpAdd, hg, List.filter_cons, ih, hf]
      · by_cases hf : f = fid
        · subst hf
          simp [bumpAdd, hg, hgfid, List.filter_cons, ih]
        · simp [bumpAdd, hg, hgfid, List.filter_cons, ih, hf]

theorem bumpAddIter_single (fid : Nat) :
    ∀ (k n : Nat), bumpAddIter fid [(fid, 0, n)] k = [(fid, 0, n + k)] := by
  intro k
  induction k with
  | zero => intro n; rfl
  | succ k ih =>
    intro n
    show bumpAddIter fid (bumpAdd [(fid, 0, n)] fid) k = _
    have hb : bumpAdd [(fid, 0, n)] fid = [(fid, 0, n + 1)] := by simp [bumpAdd]
    have ha : n + 1 + k = n + (k + 1) := by omega
    rw [hb, ih, ha]

theorem bumpAddIter_nil (fid : Nat) :
    ∀ k, bumpAddIter fid [] k = if k = 0 then [] else [(fid, 0, k)] := by
  intro k
  cases k with
  | zero => rfl
  | succ k =>
    show bumpAddIter fid (bumpAdd [] fid) k = _
    have hb : bumpAdd [] fid = [(fid, 0, 1)] := rfl
    rw [hb, bumpAddIter_single]
    simp [Nat.add_comm]

theorem foldl_bumpAdd_filter (fid : Nat) (toks : List Token) :
    ∀ m, (toks.foldl (fun m t => bumpAdd m t.fid) m).filter (fun e => e.1 == fid) =
      bumpAddIter fid (m.filter (fun e => e.1 == fid))
        (toks.countP (fun t => t.fid == fid)) := by
  induction toks with
  | nil =>
    intro m
    simp [bumpAddIter]
  | cons t rest ih =>
    intro m
    simp only [List.foldl_cons, List.countP_cons]
    rw [ih, filter_bumpAdd]
    by_cases ht : t.fid = fid
    · simp only [ht, if_true, beq_self_eq_true, if_pos]
      rfl
    · have : (t.fid == fid) = false := by simp [ht]
      simp [ht, this]

theorem tallyAdd_filter (fid : Nat) (toks : List Token) :
    (tallyAddToks toks).filter (fun e => e.1 == fid) =
      if toks.countP (fun t => t.fid == fid) = 0 then []
      else [(fid, 0, toks.countP (fun t => t.fid == fid))] := by
  rw [tallyAddToks, foldl_bumpAdd_filter]
  simp [bumpAddIter_nil]

theorem beU16_inj {a b : Nat} (ha : a < 65536) (hb : b < 65536) (h : beU16 a = beU16 b) :
    a = b := by
  simp only [beU16, List.cons.injEq, and_true] at h
  omega

theorem fidCountKey_take (g c : Nat) : (fidCountKey g c).take 2 = beU16 g :=
  rfl

theorem bumpAdd_fst_pred {P : Nat → Prop} {m : List (Nat × Nat × Nat)} {f : Nat}
    (hm : ∀ e ∈ m, P e.1) (hf : P f) : ∀ e ∈ bumpAdd m f, P e.1 := by
  induction m with
  | nil =>
    intro e he
    simp only [bumpAdd, List.mem_singleton] at he
    subst he
    exact hf
  | cons a rest ih =>
    obtain ⟨g, c, n⟩ := a
    intro e he
    by_cases hg : g = f
    · simp only [bumpAdd, hg, if_true, List.mem_cons] at he
      rcases he with he | he
      · subst he
        exact hf
      · exact hm e (List.mem_cons_of_mem _ he)
    · simp only [bumpAdd, hg, if_false, List.mem_cons] at he
      rcases he with he | he
      · subst he
        exact hm (g, c, n) (List.mem_cons_self _ _)
      · exact ih (fun e' he' => hm e' (List.mem_cons_of_mem _ he')) e he

theorem tallyAdd_fst_bound (toks : List Token) (h : ∀ t ∈ toks, t.fid < 65536) :
    ∀ e ∈ tallyAddToks toks, e.1 < 65536 := by
  have main : ∀ (l : List Token) (m : List (Nat × Nat × Nat)), (∀ t ∈ l, t.fid < 65536) →
      (∀ e ∈ m, e.1 < 65536) →
      ∀ e ∈ l.foldl (fun m t => bumpAdd m t.fid) m, e.1 < 65536 := by
    intro l
    induction l with
    | nil =>
      intro m _ hm
      simpa using hm
    | cons t rest ih =>
      intro m hl hm
      exact ih _ (fun t' ht' => hl t' (List.mem_cons_of_mem _ ht'))
        (bumpAdd_fst_pred (P := fun x => x < 65536) hm (hl t (List.mem_cons_self _ _)))
  exact main toks [] h (by simp)

theorem flushDelWrites_cons (g c n : Nat) (rest : List (Nat × Nat × Nat)) (d : Nat) :
    flushDelWrites ((g, c, n) :: rest) d =
      (if c ≠ n ∧ c ≤ MAX_COUNTED_WORDS then [(fidCountKey g c, d)] else []) ++
        flushDelWrites rest d := by
  by_cases hcond : c ≠ n ∧ c ≤ MAX_COUNTED_WORDS <;>
    simp [flushDelWrites, List.filterMap_cons, hcond]

theorem flushAddWrites_cons (g c n : Nat) (rest : List (Nat × Nat × Nat)) (d : Nat) :
    flushAddWrites ((g, c, n) :: rest) d =
      (if c ≠ n ∧ n ≤ MAX_COUNTED_WORDS then [(fidCountKey g n, d)] else []) ++
        flushAddWrites rest d := by
  by_cases hcond : c ≠ n ∧ n ≤ MAX_COUNTED_WORDS <;>
    simp [flushAddWrites, List.filterMap_cons, hcond]

theorem flushDelWrites_filter (entries : List (Nat × Nat × Nat)) (d fid : Nat)
    (hb : ∀ e ∈ entries, e.1 < 65536) (hfid : fid < 65536) :
    (flushDelWrites entries d).filter (fun x => x.1.take 2 == beU16 fid) =
      flushDelWrites (entries.filter (fun e => e.1 == fid)) d := by
  induction entries with
  | nil => rfl
  | cons e rest ih =>
    obtain ⟨g, c, n⟩ := e
    have hg : g < 65536 := hb _ (List.mem_cons_self _ _)
    have ihr := ih (fun e' he' => hb e' (List.mem_cons_of_mem _ he'))
    by_cases hcond : c ≠ n ∧ c ≤ MAX_COUNTED_WORDS
    · by_cases hgf : g = fid
      · subst hgf
        simp [flushDelWrites_cons, List.filter_cons, List.filter_append, hcond,
          fidCountKey_take, ihr]
      · have hne : (beU16 g == beU16 fid) = false := by
          simp only [beq_eq_false_iff_ne, ne_eq]
          exact fun hh => hgf (beU16_inj hg hfid hh)
        simp [flushDelWrites_cons, List.filter_cons, List.filter_append, hcond,
          fidCountKey_take, hne, hgf, ihr]
    · by_cases hgf : g = fid
      · subst hgf
        simp [flushDelWrites_cons, List.filter_cons, List.filter_append, hcond, ihr]
      · simp [flushDelWrites_cons, List.filter_cons, List.filter_append, hcond, hgf, ihr]

theorem flushAddWrites_filter (entries : List (Nat × Nat × Nat)) (d fid : Nat)
    (hb : ∀ e ∈ entries, e.1 < 65536) (hfid : fid < 65536) :
    (flushAddWrites entries d).filter (fun x => x.1.take 2 == beU16 fid) =
      flushAddWrites (entries.filter (fun e => e.1 == fid)) d := by
  induction entries with
  | nil => rfl
  | cons e rest ih =>
    obtain ⟨g, c, n⟩ := e
    have hg : g < 65536 := hb _ (List.mem_cons_self _ _)
    have ihr := ih (fun e' he' => hb e' (List.mem_cons_of_mem _ he'))
    by_cases hcond : c ≠ n ∧ n ≤ MAX_COUNTED_WORDS
    · by_cases hgf : g = fid
      · subst hgf
        simp [flushAddWrites_cons, List.filter_cons, List.filter_append, hcond,
          fidCountKey_take, ihr]
      · have hne : (beU16 g == beU16 fid) = false := by
          simp only [beq_eq_false_iff_ne, ne_eq]
          exact fun hh => hgf (beU16_inj hg hfid hh)
        simp [flushAddWrites_cons, List.filter_cons, List.filter_append, hcond,
          fidCountKey_take, hne, hgf, ihr]
    · by_cases hgf : g = fid
      · subst hgf
        simp [flushAddWrites_cons, List.filter_cons, List.filter_append, hcond, ihr]
      · simp [flushAddWrites_cons, List.filter_cons, List.filter_append, hcond, hgf, ihr]

/-! ### Byte-lexicographic order of the composite keys -/

theorem lexLt_append_sep {w1 w2 : List Nat} (h : lexLt w1 w2 = true)
    (h2 : ∀ b ∈ w2, b ≠ 0) (t1 t2 : List Nat) :
    lexLt (w1 ++ 0 :: t1) (w2 ++ 0 :: t2) = true := by
  induction w1 generalizing w2 with
  | nil =>
    cases w2 with
    | nil => simp [lexLt] at h
    | cons b ys =>
      have hb : b ≠ 0 := h2 b (List.mem_cons_self _ _)
      simp only [List.nil_append, List.cons_append, lexLt, Bool.or_eq_true,
        decide_eq_true_eq]
      exact Or.inl (Nat.pos_of_ne_zero hb)
  | cons a xs ih =>
    cases w2 with
    | nil => simp [lexLt] at h
    | cons b ys =>
      simp only [lexLt, Bool.or_eq_true, Bool.and_eq_true, decide_eq_true_eq,
        beq_iff_eq] at h
      simp only [List.cons_append, lexLt, Bool.or_eq_true, Bool.and_eq_true,
        decide_eq_true_eq, beq_iff_eq]
      rcases h with h | ⟨hab, h⟩
      · exact Or.inl h
      · exact Or.inr ⟨hab, ih h (fun b' hb' => h2 b' (List.mem_cons_of_mem _ hb'))⟩

/-! ### Association-list facts for `FieldidsWeightsMap` -/

theorem assocInsert_fst (l : List (Nat × Nat)) (fid w : Nat) :
    (assocInsert l fid w).1 = assocFind l fid := by
  induction l with
  | nil => rfl
  | cons a rest ih =>
    obtain ⟨k, v⟩ := a
    by_cases hk : k = fid <;> simp [assocInsert, assocFind, hk, ih]

theorem assocFind_insert_self (l : List (Nat × Nat)) (fid w : Nat) :
    assocFind (assocInsert l fid w).2 fid = some w := by
  induction l with
  | nil => simp [assocInsert, assocFind]
  | cons a rest ih =>
    obtain ⟨k, v⟩ := a
    by_cases hk : k = fid <;> simp [assocInsert, assocFind, hk, ih]

theorem assocFind_insert_other (l : List (Nat × Nat)) (fid w g : Nat) (hg : g ≠ fid) :
    assocFind (assocInsert l fid w).2 g = assocFind l g := by
  induction l with
  | nil => simp [assocInsert, assocFind, Ne.symm hg]
  | cons a rest ih =>
    obtain ⟨k, v⟩ := a
    by_cases hk : k = fid
    · subst hk
      simp [assocInsert, assocFind, Ne.symm hg]
    · by_cases hkg : k = g <;> simp [assocInsert, assocFind, hk, hkg, ih, hg]

theorem assocRemove_fst (l : List (Nat × Nat)) (fid : Nat) :
    (assocRemove l fid).1 = assocFind l fid := by
  induction l with
  | nil => rfl
  | cons a rest ih =>
    obtain ⟨k, v⟩ := a
    by_cases hk : k = fid <;> simp [assocRemove, assocFind, hk, ih]

theorem assocFind_eq_none (l : List (Nat × Nat)) (fid : Nat)
    (h : fid ∉ l.map Prod.fst) : assocFind l fid = none := by
  induction l with
  | nil => rfl
  | cons a rest ih =>
    obtain ⟨k, v⟩ := a
    simp only [List.map_cons, List.mem_cons, not_or] at h
    have hk : ¬k = fid := fun hh => h.1 hh.symm
    simp [assocFind, hk, ih h.2]

theorem assocFind_remove_self (l : List (Nat × Nat)) (fid : Nat)
    (h : (l.map Prod.fst).Nodup) : assocFind (assocRemove l fid).2 fid = none := by
  induction l with
  | nil => rfl
  | cons a rest ih =>
    obtain ⟨k, v⟩ := a
    simp only [List.map_cons, List.nodup_cons] at h
    by_cases hk : k = fid
    · subst hk
      simp only [assocRemove, if_pos rfl]
      exact assocFind_eq_none rest k h.1
    · simp [assocRemove, assocFind, hk, ih h.2]

theorem assocFind_remove_other (l : List (Nat × Nat)) (fid g : Nat) (hg : g ≠ fid) :
    assocFind (assocRemove l fid).2 g = assocFind l g := by
  induction l with
  | nil => rfl
  | cons a rest ih =>
    obtain ⟨k, v⟩ := a
    by_cases hk : k = fid
    · subst hk
      simp [assocRemove, assocFind, Ne.symm hg]
    · by_cases hkg : k = g <;> simp [assocRemove, assocFind, hk, hkg, ih, hg]

theorem extract_del_then_ins_eq (ea : List String) {s : WordDocidsCachedSorters}
    (docid : Nat) (current new : List Token) (h : s.fid_word_count = []) :
    ((extract_document_change ea s (DocumentChange.Deletion docid current)).bind
      (fun s1 => extract_document_change ea s1 (DocumentChange.Insertion docid new))) =
        some
      { word_fid_docids := ⟨s.word_fid_docids.delWrites ++ fidStreamWrites current docid,
          s.word_fid_docids.addWrites ++ fidStreamWrites new docid⟩
      , word_docids := ⟨s.word_docids.delWrites ++ plainWordWrites ea current docid,
          s.word_docids.addWrites ++ plainWordWrites ea new docid⟩
      , exact_word_docids :=
          ⟨s.exact_word_docids.delWrites ++ exactWordWrites ea current docid,
           s.exact_word_docids.addWrites ++ exactWordWrites ea new docid⟩
      , word_position_docids :=
          ⟨s.word_position_docids.delWrites ++ positionStreamWrites current docid,
           s.word_position_docids.addWrites ++ positionStreamWrites new docid⟩
      , fid_word_count_docids :=
          ⟨(s.fid_word_count_docids.delWrites ++ flushDelWrites (tallyDelToks current) docid)
              ++ flushDelWrites (tallyAddToks new) docid,
           (s.fid_word_count_docids.addWrites ++ flushAddWrites (tallyDelToks current) docid)
              ++ flushAddWrites (tallyAddToks new) docid⟩
      , fid_word_count := []
      , current_docid := afterDocid new (afterDocid current s.current_docid docid) docid } := by
  rw [extract_deletion_eq ea docid current h, optionBindSome]
  exact extract_insertion_eq ea docid new rfl

/-- C1 (counterexample): processing the single change `Deletion(docid 1, one token "a" in
field 0)` from a fresh accumulator appends the write `([0,0,0], 1)` — key `be(0) ++ [0]`,
count byte 0 — to the ADD side of `fid_word_count_docids` (`flush_fid_word_count` runs its
`new_count <= MAX_COUNTED_WORDS` branch with `new_count = 0`).  So the claim that on a
Deletion only del sides receive writes is false. -/
theorem c1_counterexample :
    (extract_document_change [] WordDocidsCachedSorters.new
        (DocumentChange.Deletion 1 [⟨"t", 0, 0, [97]⟩])).map
      (fun s => s.fid_word_count_docids.addWrites) = some [([0, 0, 0], 1)] ∧
    (extract_document_change [] WordDocidsCachedSorters.new
        (DocumentChange.Deletion 1 [⟨"t", 0, 0, [97]⟩])).map
      (fun s => s.fid_word_count_docids.addWrites) ≠ some [] := by
  decide

/-- C1 (amended): for a change processed by `extract_document_change` from a drained
tally: on a Deletion only del sides receive writes EXCEPT that `flush_fid_word_count`
also writes the add side of `fid_word_count_docids`, and every such add write has count
byte 0; symmetrically, on an Insertion only add sides receive writes except del-side
`fid_word_count_docids` writes with count byte 0; on an Update the tokens of the old
version are written to del sides and the tokens of the new version to add sides on all
five streams (`flush_fid_word_count` keys the del side by the old count and the add side
by the new count, via `tallyUpdToks`). -/
theorem c1_sides_amended (ea : List String) (s : WordDocidsCachedSorters)
    (docid : Nat) (current new : List Token) (hs : s.fid_word_count = []) :
    (∀ s', extract_document_change ea s (DocumentChange.Deletion docid current) = some s' →
      s'.word_docids.addWrites = s.word_docids.addWrites ∧
      s'.exact_word_docids.addWrites = s.exact_word_docids.addWrites ∧
      s'.word_fid_docids.addWrites = s.word_fid_docids.addWrites ∧
      s'.word_position_docids.addWrites = s.word_position_docids.addWrites ∧
      ∃ l, s'.fid_word_count_docids.addWrites = s.fid_word_count_docids.addWrites ++ l ∧
        ∀ x ∈ l, x.1.getD 2 0 = 0) ∧
    (∀ s', extract_document_change ea s (DocumentChange.Insertion docid new) = some s' →
      s'.word_docids.delWrites = s.word_docids.delWrites ∧
      s'.exact_word_docids.delWrites = s.exact_word_docids.delWrites ∧
      s'.word_fid_docids.delWrites = s.word_fid_docids.delWrites ∧
      s'.word_position_docids.delWrites = s.word_position_docids.delWrites ∧
      ∃ l, s'.fid_word_count_docids.delWrites = s.fid_word_count_docids.delWrites ++ l ∧
        ∀ x ∈ l, x.1.getD 2 0 = 0) ∧
    extract_document_change ea s (DocumentChange.Update docid current new) = some
      { word_fid_docids := ⟨s.word_fid_docids.delWrites ++ fidStreamWrites current docid,
          s.word_fid_docids.addWrites ++ fidStreamWrites new docid⟩
      , word_docids := ⟨s.word_docids.delWrites ++ plainWordWrites ea current docid,
          s.word_docids.addWrites ++ plainWordWrites ea new docid⟩
      , exact_word_docids :=
          ⟨s.exact_word_docids.delWrites ++ exactWordWrites ea current docid,
           s.exact_word_docids.addWrites ++ exactWordWrites ea new docid⟩
      , word_position_docids :=
          ⟨s.word_position_docids.delWrites ++ positionStreamWrites current docid,
           s.word_position_docids.addWrites ++ positionStreamWrites new docid⟩
      , fid_word_count_docids :=
          ⟨s.fid_word_count_docids.delWrites ++ flushDelWrites (tallyUpdToks current new) docid,
           s.fid_word_count_docids.addWrites ++ flushAddWrites (tallyUpdToks current new) docid⟩
      , fid_word_count := []
      , current_docid := afterDocid new (afterDocid current s.current_docid docid) docid }
      := by
  refine ⟨?_, ?_, extract_update_eq ea docid current new hs⟩
  · intro s' h
    rw [extract_deletion_eq ea docid current hs] at h
    cases h
    exact ⟨rfl, rfl, rfl, rfl, flushAddWrites (tallyDelToks current) docid, rfl,
      flushAddWrites_del_tally current docid⟩
  · intro s' h
    rw [extract_insertion_eq ea docid new hs] at h
    cases h
    exact ⟨rfl, rfl, rfl, rfl, flushDelWrites (tallyAddToks new) docid, rfl,
      flushDelWrites_add_tally new docid⟩

/-- C1 (witness): the amended claim at a concrete input. -/
theorem c1_witness :
    (∀ s', extract_document_change [] WordDocidsCachedSorters.new
        (DocumentChange.Deletion 1 [⟨"t", 0, 0, [97]⟩]) = some s' →
      s'.word_docids.addWrites = WordDocidsCachedSorters.new.word_docids.addWrites ∧
      s'.exact_word_docids.addWrites =
        WordDocidsCachedSorters.new.exact_word_docids.addWrites ∧
      s'.word_fid_docids.addWrites = WordDocidsCachedSorters.new.word_fid_docids.addWrites ∧
      s'.word_position_docids.addWrites =
        WordDocidsCachedSorters.new.word_position_docids.addWrites ∧
      ∃ l, s'.fid_word_count_docids.addWrites =
          WordDocidsCachedSorters.new.fid_word_count_docids.addWrites ++ l ∧
        ∀ x ∈ l, x.1.getD 2 0 = 0) ∧
    (∀ s', extract_document_change [] WordDocidsCachedSorters.new
        (DocumentChange.Insertion 1 [⟨"u", 0, 1, [98]⟩]) = some s' →
      s'.word_docids.delWrites = WordDocidsCachedSorters.new.word_docids.delWrites ∧
      s'.exact_word_docids.delWrites =
        WordDocidsCachedSorters.new.exact_word_docids.delWrites ∧
      s'.word_fid_docids.delWrites = WordDocidsCachedSorters.new.word_fid_docids.delWrites ∧
      s'.word_position_docids.delWrites =
        WordDocidsCachedSorters.new.word_position_docids.delWrites ∧
      ∃ l, s'.fid_word_count_docids.delWrites =
          WordDocidsCachedSorters.new.fid_word_count_docids.delWrites ++ l ∧
        ∀ x ∈ l, x.1.getD 2 0 = 0) ∧
    extract_document_change [] WordDocidsCachedSorters.new
      (DocumentChange.Update 1 [⟨"t", 0, 0, [97]⟩] [⟨"u", 0, 1, [98]⟩]) = some
      { word_fid_docids := ⟨WordDocidsCachedSorters.new.word_fid_docids.delWrites ++
            fidStreamWrites [⟨"t", 0, 0, [97]⟩] 1,
          WordDocidsCachedSorters.new.word_fid_docids.addWrites ++
            fidStreamWrites [⟨"u", 0, 1, [98]⟩] 1⟩
      , word_docids := ⟨WordDocidsCachedSorters.new.word_docids.delWrites ++
            plainWordWrites [] [⟨"t", 0, 0, [97]⟩] 1,
          WordDocidsCachedSorters.new.word_docids.addWrites ++
            plainWordWrites [] [⟨"u", 0, 1, [98]⟩] 1⟩
      , exact_word_docids :=
          ⟨WordDocidsCachedSorters.new.exact_word_docids.delWrites ++
            exactWordWrites [] [⟨"t", 0, 0, [97]⟩] 1,
           WordDocidsCachedSorters.new.exact_word_docids.addWrites ++
            exactWordWrites [] [⟨"u", 0, 1, [98]⟩] 1⟩
      , word_position_docids :=
          ⟨WordDocidsCachedSorters.new.word_position_docids.delWrites ++
            positionStreamWrites [⟨"t", 0, 0, [97]⟩] 1,
           WordDocidsCachedSorters.new.word_position_docids.addWrites ++
            positionStreamWrites [⟨"u", 0, 1, [98]⟩] 1⟩
      , fid_word_count_docids :=
          ⟨WordDocidsCachedSorters.new.fid_word_count_docids.delWrites ++
            flushDelWrites (tallyUpdToks [⟨"t", 0, 0, [97]⟩] [⟨"u", 0, 1, [98]⟩]) 1,
           WordDocidsCachedSorters.new.fid_word_count_docids.addWrites ++
            flushAddWrites (tallyUpdToks [⟨"t", 0, 0, [97]⟩] [⟨"u", 0, 1, [98]⟩]) 1⟩
      , fid_word_count := []
      , current_docid := afterDocid [⟨"u", 0, 1, [98]⟩]
          (afterDocid [⟨"t", 0, 0, [97]⟩] WordDocidsCachedSorters.new.current_docid 1) 1 } :=
  c1_sides_amended [] WordDocidsCachedSorters.new 1 [⟨"t", 0, 0, [97]⟩]
    [⟨"u", 0, 1, [98]⟩] rfl

/-- C2 (counterexample): with docid 1 and old = new = one token "a" in field 0, the
single change `Update` emits nothing into `fid_word_count_docids` (the per-field count is
unchanged, 1 = 1), while `Deletion` followed by `Insertion` emits del-side writes
`([0,0,1], 1)` and `([0,0,0], 1)` (and symmetric add-side writes); in particular key
`[0,0,1]` carries docid 1 on the del side in the second run and is absent in the first,
so the five output streams are not the same. -/
theorem c2_counterexample :
    (extract_document_change [] WordDocidsCachedSorters.new
        (DocumentChange.Update 1 [⟨"t", 0, 0, [97]⟩] [⟨"t", 0, 0, [97]⟩])).map
      (fun s => s.fid_word_count_docids.delWrites) = some [] ∧
    ((extract_document_change [] WordDocidsCachedSorters.new
        (DocumentChange.Deletion 1 [⟨"t", 0, 0, [97]⟩])).bind
      (fun s1 => extract_document_change [] s1
        (DocumentChange.Insertion 1 [⟨"t", 0, 0, [97]⟩]))).map
      (fun s => s.fid_word_count_docids.delWrites) =
        some [([0, 0, 1], 1), ([0, 0, 0], 1)] := by
  decide

/-- C2 (amended): from a drained tally, processing `Update(d, old, new)` and processing
`Deletion(d, old)` followed by `Insertion(d, new)` both succeed and produce exactly the
same four token-level output streams `word_docids`, `exact_word_docids`,
`word_fid_docids` and `word_position_docids` (same del and add write lists); the fifth
stream `fid_word_count_docids` may differ. -/
theorem c2_update_four_streams (ea : List String) (s : WordDocidsCachedSorters)
    (docid : Nat) (current new : List Token) (hs : s.fid_word_count = []) :
    ∃ su sdi,
      extract_document_change ea s (DocumentChange.Update docid current new) = some su ∧
      ((extract_document_change ea s (DocumentChange.Deletion docid current)).bind
        (fun s1 => extract_document_change ea s1 (DocumentChange.Insertion docid new))) =
          some sdi ∧
      su.word_docids = sdi.word_docids ∧
      su.exact_word_docids = sdi.exact_word_docids ∧
      su.word_fid_docids = sdi.word_fid_docids ∧
      su.word_position_docids = sdi.word_position_docids :=
  ⟨_, _, extract_update_eq ea docid current new hs,
    extract_del_then_ins_eq ea docid current new hs, rfl, rfl, rfl, rfl⟩

/-- C2 (witness): the amended claim at a concrete input. -/
theorem c2_witness :
    ∃ su sdi,
      extract_document_change [] WordDocidsCachedSorters.new
        (DocumentChange.Update 1 [⟨"t", 0, 0, [97]⟩] [⟨"u", 0, 1, [98]⟩]) = some su ∧
      ((extract_document_change [] WordDocidsCachedSorters.new
        (DocumentChange.Deletion 1 [⟨"t", 0, 0, [97]⟩])).bind
        (fun s1 => extract_document_change [] s1
          (DocumentChange.Insertion 1 [⟨"u", 0, 1, [98]⟩]))) = some sdi ∧
      su.word_docids = sdi.word_docids ∧
      su.exact_word_docids = sdi.exact_word_docids ∧
      su.word_fid_docids = sdi.word_fid_docids ∧
      su.word_position_docids = sdi.word_position_docids :=
  c2_update_four_streams [] WordDocidsCachedSorters.new 1 [⟨"t", 0, 0, [97]⟩]
    [⟨"u", 0, 1, [98]⟩] rfl

/-- C3 (counterexample): inserting a document whose field 0 holds 31 token positions
writes `([0,0,0], 1)` — an entry for that field, count byte 0 — to the del side of
`fid_word_count_docids`, so the claim that the stream receives no entry at all for that
field on either side is false. -/
theorem c3_counterexample :
    (extract_document_change [] WordDocidsCachedSorters.new
        (DocumentChange.Insertion 1
          ((List.range 31).map (fun i => ⟨"t", 0, i, [97]⟩)))).map
      (fun s => s.fid_word_count_docids.delWrites) = some [([0, 0, 0], 1)] ∧
    (extract_document_change [] WordDocidsCachedSorters.new
        (DocumentChange.Insertion 1
          ((List.range 31).map (fun i => ⟨"t", 0, i, [97]⟩)))).map
      (fun s => s.fid_word_count_docids.delWrites) ≠ some [] := by
  decide

/-- C3 (amended): inserting a document one of whose fields yields 31 token positions
produces, in `fid_word_count_docids`, no add-side entry for that field and no entry with
count byte 31 on either side; the del side receives exactly one entry for that field,
with count byte 0 (`flush_fid_word_count` emits the `current_count = 0` del write and
suppresses the `new_count = 31 > MAX_COUNTED_WORDS` add write). -/
theorem c3_count_ceiling_amended (ea : List String) (s : WordDocidsCachedSorters)
    (docid fid : Nat) (toks : List Token)
    (hs : s.fid_word_count = [])
    (hfid : fid < 65536)
    (htoks : ∀ t ∈ toks, t.fid < 65536)
    (hcount : toks.countP (fun t => t.fid == fid) = 31) :
    ∃ l1 l2,
      (extract_document_change ea s (DocumentChange.Insertion docid toks)).map
          (fun s' => s'.fid_word_count_docids) =
        some ⟨s.fid_word_count_docids.delWrites ++ l1,
              s.fid_word_count_docids.addWrites ++ l2⟩ ∧
      l2.filter (fun x => x.1.take 2 == beU16 fid) = [] ∧
      l1.filter (fun x => x.1.take 2 == beU16 fid) = [(beU16 fid ++ [0], docid)] ∧
      (l1 ++ l2).filter (fun x => x.1.getD 2 0 == 31) = [] := by
  refine ⟨flushDelWrites (tallyAddToks toks) docid, flushAddWrites (tallyAddToks toks) docid,
    ?_, ?_, ?_, ?_⟩
  · rw [extract_insertion_eq ea docid toks hs]
    rfl
  · rw [flushAddWrites_filter _ _ _ (tallyAdd_fst_bound toks htoks) hfid, tallyAdd_filter,
      hcount]
    simp [flushAddWrites, List.filterMap_cons, MAX_COUNTED_WORDS]
  · rw [flushDelWrites_filter _ _ _ (tallyAdd_fst_bound toks htoks) hfid, tallyAdd_filter,
      hcount]
    simp [flushDelWrites, List.filterMap_cons, MAX_COUNTED_WORDS, fidCountKey]
  · rw [List.filter_eq_nil_iff]
    intro x hx
    rcases List.mem_append.1 hx with hx | hx
    · have hb := flushDelWrites_bound (tallyAddToks toks) docid x hx
      simp only [beq_iff_eq]
      omega
    · have hb := flushAddWrites_bound (tallyAddToks toks) docid x hx
      simp only [beq_iff_eq]
      omega

/-- C3 (witness): the amended claim at a concrete input with 31 tokens in field 0. -/
theorem c3_witness :
    ∃ l1 l2,
      (extract_document_change [] WordDocidsCachedSorters.new
          (DocumentChange.Insertion 1
            ((List.range 31).map (fun i => ⟨"t", 0, i, [97]⟩)))).map
          (fun s' => s'.fid_word_count_docids) =
        some ⟨WordDocidsCachedSorters.new.fid_word_count_docids.delWrites ++ l1,
              WordDocidsCachedSorters.new.fid_word_count_docids.addWrites ++ l2⟩ ∧
      l2.filter (fun x => x.1.take 2 == beU16 0) = [] ∧
      l1.filter (fun x => x.1.take 2 == beU16 0) = [(beU16 0 ++ [0], 1)] ∧
      (l1 ++ l2).filter (fun x => x.1.getD 2 0 == 31) = [] :=
  c3_count_ceiling_amended [] WordDocidsCachedSorters.new 1 0
    ((List.range 31).map (fun i => ⟨"t", 0, i, [97]⟩)) rfl (by decide) (by decide)
    (by decide)

/-- C4 (counterexample): with `max_memory = some 400`, `WordDocidsCachedSorters::new`
creates the `fid_word_count_docids` sorter with budget `some 100` (= 400 / 4), not with
no cap, so the claim that the fifth stream is given no memory cap is false. -/
theorem c4_counterexample :
    (sorterBudgets (some 400)).fid_word_count_docids = some 100 ∧
      (sorterBudgets (some 400)).fid_word_count_docids ≠ none := by
  decide

/-- C4 (amended): when `max_memory` is set, every one of the five sorters — including
`fid_word_count_docids` — is created with memory budget exactly `max_memory / 4`; when it
is unset, all five are uncapped. -/
theorem c4_budgets_amended (m : Nat) :
    sorterBudgets (some m) =
      { word_fid_docids := some (m / 4)
      , word_docids := some (m / 4)
      , exact_word_docids := some (m / 4)
      , word_position_docids := some (m / 4)
      , fid_word_count_docids := some (m / 4) } ∧
    sorterBudgets none =
      { word_fid_docids := none
      , word_docids := none
      , exact_word_docids := none
      , word_position_docids := none
      , fid_word_count_docids := none } :=
  ⟨rfl, rfl⟩

/-- C5 (counterexample): the tokenizer words are opaque byte strings, so a word may
contain the byte 0; with w1 = [97] ("a"), w2 = [97, 0, 0, 0], field ids 1 and 0, we have
w1 < w2 byte-lexicographically but key(w1) = [97,0,0,1] > [97,0,0,0,0,0,0] = key(w2), so
the claim fails as stated. -/
theorem c5_counterexample :
    lexLt [97] [97, 0, 0, 0] = true ∧
      lexLt (wordFidKey [97] 1) (wordFidKey [97, 0, 0, 0] 0) = false := by
  decide

/-- C5 (amended): for any two words that contain no 0x00 byte, with w1 < w2 in
byte-lexicographic order, and any field ids and positions, the `word_fid_docids` and
`word_position_docids` composite keys are ordered the same way: key(w1) < key(w2). -/
theorem c5_key_order_amended (w1 w2 : List Nat) (f1 f2 p1 p2 : Nat)
    (h : lexLt w1 w2 = true) (h1 : ∀ b ∈ w1, b ≠ 0) (h2 : ∀ b ∈ w2, b ≠ 0) :
    lexLt (wordFidKey w1 f1) (wordFidKey w2 f2) = true ∧
      lexLt (wordPositionKey w1 p1) (wordPositionKey w2 p2) = true :=
  ⟨lexLt_append_sep h h2 (beU16 f1) (beU16 f2),
   lexLt_append_sep h h2 (beU16 (bucketed_position p1)) (beU16 (bucketed_position p2))⟩

/-- C5 (witness): the amended claim at a concrete input. -/
theorem c5_witness :
    lexLt [97] [98] = true ∧
      (lexLt (wordFidKey [97] 5) (wordFidKey [98] 3) = true ∧
        lexLt (wordPositionKey [97] 7) (wordPositionKey [98] 2) = true) :=
  ⟨by decide,
    c5_key_order_amended [97] [98] 5 3 7 2 (by decide) (by decide) (by decide)⟩

/-- C6: after processing any sequence of document changes from a fresh accumulator, every
key of the `fid_word_count_docids` stream, on both the del and the add side, has its
count byte (key byte at index 2) at most 30 — never greater than 30. -/
theorem c6_count_ceiling (ea : List String) (changes : List DocumentChange)
    (s' : WordDocidsCachedSorters)
    (h : processChanges ea WordDocidsCachedSorters.new changes = some s') :
    ∀ x, (x ∈ s'.fid_word_count_docids.delWrites ∨
        x ∈ s'.fid_word_count_docids.addWrites) →
      x.1.getD 2 0 ≤ 30 := by
  intro x hx
  have hle := processChanges_fwcLe ea changes h
  rcases hx with hx | hx
  · rcases hle.1 x hx with hmem | hb
    · simp [WordDocidsCachedSorters.new] at hmem
    · exact hb
  · rcases hle.2 x hx with hmem | hb
    · simp [WordDocidsCachedSorters.new] at hmem
    · exact hb

/-- C6 (witness): the claim at a concrete input, applied to the two writes the input
produces (one per side). -/
theorem c6_witness :
    (([0, 0, 0], 1) : List Nat × Nat).1.getD 2 0 ≤ 30 ∧
      (([0, 0, 1], 1) : List Nat × Nat).1.getD 2 0 ≤ 30 :=
  ⟨c6_count_ceiling [] [DocumentChange.Insertion 1 [⟨"t", 0, 0, [97]⟩]]
      (WordDocidsCachedSorters.mk
        ⟨[], [([97, 0, 0, 0], 1)]⟩ ⟨[], [([97], 1)]⟩ ⟨[], []⟩
        ⟨[], [([97, 0, 0, 0], 1)]⟩ ⟨[([0, 0, 0], 1)], [([0, 0, 1], 1)]⟩ []
        (some 1)) (by decide) ([0, 0, 0], 1) (Or.inl (by decide)),
    c6_count_ceiling [] [DocumentChange.Insertion 1 [⟨"t", 0, 0, [97]⟩]]
      (WordDocidsCachedSorters.mk
        ⟨[], [([97, 0, 0, 0], 1)]⟩ ⟨[], [([97], 1)]⟩ ⟨[], []⟩
        ⟨[], [([97, 0, 0, 0], 1)]⟩ ⟨[([0, 0, 0], 1)], [([0, 0, 1], 1)]⟩ []
        (some 1)) (by decide) ([0, 0, 1], 1) (Or.inr (by decide))⟩

/-- C7: a token-level write of `insert_add_u32`/`insert_del_u32` goes to
`exact_word_docids` iff the token's field name is contained-in some entry of the
exact-attribute configuration, and otherwise to `word_docids`; exactly one of the two
streams is extended, never both. -/
theorem c7_exact_routing (ea : List String) (s : WordDocidsCachedSorters)
    (fname : String) (fid pos docid : Nat) (word : List Nat) :
    (is_exact_attribute ea fname = true ↔
      ∃ attr ∈ ea, contained_in fname attr = true) ∧
    (s.insert_add_u32 fid pos word (is_exact_attribute ea fname) docid).map
        (fun s' => (s'.exact_word_docids.addWrites, s'.word_docids.addWrites)) =
      some (if is_exact_attribute ea fname
        then (s.exact_word_docids.addWrites ++ [(word, docid)], s.word_docids.addWrites)
        else (s.exact_word_docids.addWrites, s.word_docids.addWrites ++ [(word, docid)])) ∧
    (s.insert_del_u32 fid pos word (is_exact_attribute ea fname) docid).map
        (fun s' => (s'.exact_word_docids.delWrites, s'.word_docids.delWrites)) =
      some (if is_exact_attribute ea fname
        then (s.exact_word_docids.delWrites ++ [(word, docid)], s.word_docids.delWrites)
        else (s.exact_word_docids.delWrites, s.word_docids.delWrites ++ [(word, docid)]))
      := by
  refine ⟨?_, ?_, ?_⟩
  · simp [is_exact_attribute, List.any_eq_true]
  · obtain ⟨s', hs', hw, hx, _, _, _, _, _⟩ :=
      insert_add_shape s fid pos word (is_exact_attribute ea fname) docid
    rw [hs']
    by_cases hex : is_exact_attribute ea fname <;>
      simp [hex, hw, hx, CboCachedSorter.insertAdd]
  · obtain ⟨s', hs', hw, hx, _, _, _, _, _⟩ :=
      insert_del_shape s fid pos word (is_exact_attribute ea fname) docid
    rw [hs']
    by_cases hex : is_exact_attribute ea fname <;>
      simp [hex, hw, hx, CboCachedSorter.insertDel]

/-- C8: in every state reachable from `new()` by `insert_add_u32`, `insert_del_u32` and
`flush_fid_word_count` calls, a non-empty `fid_word_count` tally implies `current_docid`
is `Some`; consequently `flush_fid_word_count` never hits the `none` case of
`current_docid.unwrap()` — it always returns `some`. -/
theorem c8_flush_no_panic (s : WordDocidsCachedSorters) (hr : Reachable s) :
    (s.fid_word_count ≠ [] → s.current_docid.isSome = true) ∧
      s.flush_fid_word_count.isSome = true := by
  have hinv : s.fid_word_count = [] ∨ ∃ d, s.current_docid = some d := by
    induction hr with
    | init => exact Or.inl rfl
    | add hr heq ih =>
      rename_i s0 s' f p d w ex
      obtain ⟨s2, h2, _, _, _, _, hcur, _, _⟩ := insert_add_shape s0 f p w ex d
      rw [h2] at heq
      cases heq
      exact Or.inr ⟨d, hcur⟩
    | del hr heq ih =>
      rename_i s0 s' f p d w ex
      obtain ⟨s2, h2, _, _, _, _, hcur, _, _⟩ := insert_del_shape s0 f p w ex d
      rw [h2] at heq
      cases heq
      exact Or.inr ⟨d, hcur⟩
    | flush hr heq ih =>
      rename_i s0 s'
      rw [WordDocidsCachedSorters.flush_fid_word_count] at heq
      cases hfe : flushEntries s0.current_docid s0.fid_word_count
          s0.fid_word_count_docids with
      | none => rw [hfe] at heq; cases heq
      | some sorter => rw [hfe] at heq; cases heq; exact Or.inl rfl
  constructor
  · intro hne
    rcases hinv with h | ⟨d, hd⟩
    · exact absurd h hne
    · rw [hd]
      rfl
  · rcases hinv with h | ⟨d, hd⟩
    · rw [flush_empty h]
      rfl
    · rw [flush_eq (d := d) (Or.inl hd)]
      rfl

/-- C8 (witness): the claim at the initial state. -/
theorem c8_witness :
    (WordDocidsCachedSorters.new.fid_word_count ≠ [] →
      WordDocidsCachedSorters.new.current_docid.isSome = true) ∧
      WordDocidsCachedSorters.new.flush_fid_word_count.isSome = true :=
  c8_flush_no_panic WordDocidsCachedSorters.new Reachable.init

/-- C9: on a `FieldidsWeightsMap` whose keys are unique (the HashMap invariant),
`insert(fid, w)` returns the previously associated weight and afterwards `weight fid`
returns `some w`; `remove fid` returns the previously associated weight and afterwards
`weight fid` returns `none`; the weights of all other field ids are unchanged by both
operations. -/
theorem c9_weights_map_ops (m : FieldidsWeightsMap) (fid w : Nat)
    (h : (m.map.map Prod.fst).Nodup) :
    (m.insert fid w).1 = m.weight fid ∧
    (m.insert fid w).2.weight fid = some w ∧
    (m.remove fid).1 = m.weight fid ∧
    (m.remove fid).2.weight fid = none ∧
    (∀ g, g ≠ fid → (m.insert fid w).2.weight g = m.weight g) ∧
    (∀ g, g ≠ fid → (m.remove fid).2.weight g = m.weight g) :=
  ⟨assocInsert_fst m.map fid w, assocFind_insert_self m.map fid w,
    assocRemove_fst m.map fid, assocFind_remove_self m.map fid h,
    fun g hg => assocFind_insert_other m.map fid w g hg,
    fun g hg => assocFind_remove_other m.map fid g hg⟩

/-- C9 (witness): the claim at a concrete two-entry map. -/
theorem c9_witness :
    ((⟨[(1, 5), (2, 7)]⟩ : FieldidsWeightsMap).insert 1 9).1 =
      (⟨[(1, 5), (2, 7)]⟩ : FieldidsWeightsMap).weight 1 ∧
    ((⟨[(1, 5), (2, 7)]⟩ : FieldidsWeightsMap).insert 1 9).2.weight 1 = some 9 ∧
    ((⟨[(1, 5), (2, 7)]⟩ : FieldidsWeightsMap).remove 1).1 =
      (⟨[(1, 5), (2, 7)]⟩ : FieldidsWeightsMap).weight 1 ∧
    ((⟨[(1, 5), (2, 7)]⟩ : FieldidsWeightsMap).remove 1).2.weight 1 = none ∧
    (∀ g, g ≠ 1 → ((⟨[(1, 5), (2, 7)]⟩ : FieldidsWeightsMap).insert 1 9).2.weight g =
      (⟨[(1, 5), (2, 7)]⟩ : FieldidsWeightsMap).weight g) ∧
    (∀ g, g ≠ 1 → ((⟨[(1, 5), (2, 7)]⟩ : FieldidsWeightsMap).remove 1).2.weight g =
      (⟨[(1, 5), (2, 7)]⟩ : FieldidsWeightsMap).weight g) :=
  c9_weights_map_ops ⟨[(1, 5), (2, 7)]⟩ 1 9 (by decide)

/-- C10: every `Prompt` successfully built by `Prompt::new` (or by `Default`, whose
template text parses and passes the render check) round-trips: converting it to
`PromptData` and back through `TryFrom` succeeds and preserves `template_text`,
`strategy` and `fallback`. -/
theorem c10_prompt_round_trip (eng : LiquidEngine) (t : String)
    (st : Option PromptFallbackStrategy) (fb : Option String) (p : Prompt)
    (hp : Prompt.new eng t st fb = some p) :
    (∃ p', Prompt.tryFrom eng (PromptData.fromPrompt p) = some p' ∧
      p'.template_text = p.template_text ∧ p'.strategy = p.strategy ∧
      p'.fallback = p.fallback) ∧
    (eng.canParse default_template_text = true →
      eng.renderChecks default_template_text = true →
      ∃ p', Prompt.tryFrom eng (PromptData.fromPrompt Prompt.defaultValue) = some p' ∧
        p'.template_text = Prompt.defaultValue.template_text ∧
        p'.strategy = Prompt.defaultValue.strategy ∧
        p'.fallback = Prompt.defaultValue.fallback) := by
  constructor
  · rw [Prompt.new] at hp
    by_cases hc : eng.canParse t
    · rw [if_pos hc] at hp
      by_cases hr : eng.renderChecks t
      · simp only [hr, if_true] at hp
        cases hp
        refine ⟨_, ?_, rfl, rfl, rfl⟩
        simp [Prompt.tryFrom, Prompt.new, PromptData.fromPrompt, hc, hr]
      · simp only [hr, Bool.false_eq_true, if_false] at hp
        cases hp
    · rw [if_neg hc] at hp
      cases hp
  · intro h1 h2
    refine ⟨_, ?_, rfl, rfl, rfl⟩
    simp [Prompt.tryFrom, Prompt.new, PromptData.fromPrompt, Prompt.defaultValue, h1, h2]

/-- C10 (witness): the claim at a concrete engine and template. -/
theorem c10_witness :
    (∃ p', Prompt.tryFrom ⟨fun _ => true, fun _ => true⟩
        (PromptData.fromPrompt ⟨"x", "x", PromptFallbackStrategy.Error, ""⟩) = some p' ∧
      p'.template_text = (⟨"x", "x", PromptFallbackStrategy.Error, ""⟩ :
          Prompt).template_text ∧
      p'.strategy = (⟨"x", "x", PromptFallbackStrategy.Error, ""⟩ : Prompt).strategy ∧
      p'.fallback = (⟨"x", "x", PromptFallbackStrategy.Error, ""⟩ : Prompt).fallback) ∧
    ((⟨fun _ => true, fun _ => true⟩ : LiquidEngine).canParse default_template_text = true →
      (⟨fun _ => true, fun _ => true⟩ :
          LiquidEngine).renderChecks default_template_text = true →
      ∃ p', Prompt.tryFrom ⟨fun _ => true, fun _ => true⟩
          (PromptData.fromPrompt Prompt.defaultValue) = some p' ∧
        p'.template_text = Prompt.defaultValue.template_text ∧
        p'.strategy = Prompt.defaultValue.strategy ∧
        p'.fallback = Prompt.defaultValue.fallback) :=
  c10_prompt_round_trip ⟨fun _ => true, fun _ => true⟩ "x" none none
    ⟨"x", "x", PromptFallbackStrategy.Error, ""⟩ rfl
